import Mathlib

/-!
Verification of the scoring / loss / metric / inference subsystem of
`graph2tac/tfgnn/tasks.py`.

Modelling conventions for the shallow embedding:

* A dense (rectangular) tensor of rank `n` is a `List` nested `n` deep; a ragged tensor is the
  same with rows of varying length.
* Scores that can become `-inf` (via `log 0` masking or `-inf` padding) live in `WithBot ℝ`,
  with `⊥` playing the role of `-inf`; `tf.exp` sends `⊥` to `0`.  Scores that are always
  finite live in `ℝ`.
* The spurious unit dimension of the ground-truth tensors (shape `[batch, 1, None(args)]`,
  removed by `tf.squeeze(..., axis=1)` at the start of every consumer) is omitted: ground
  truth labels are modelled as `List (List ℤ)` directly.
* TensorFlow ops that raise on malformed inputs (out-of-range gather indices,
  `from_tensor` with too-large lengths) are modelled totally with `List.getD` / `List.take`;
  theorems about them carry the corresponding well-formedness hypotheses.
* NaN has no counterpart in `WithBot ℝ`.  The two places where TensorFlow would produce NaN
  (normalizing a position whose candidate rows are all empty / all `-inf`, and `log` of a
  negative number) are marked in comments; all theorems below exclude them by hypothesis.
-/

/-! ## Generic list / ragged-tensor primitives -/

/-- Length of the longest row of a nested list; the padded row count / width used by
`tf.RaggedTensor.to_tensor`. -/
def maxLen {α : Type*} (t : List (List α)) : ℕ := t.foldr (fun r m => max r.length m) 0

/-- Padding of a row to width `n` with fill value `v` (no-op when the row is already
at least that wide), as performed by `tf.RaggedTensor.to_tensor(default_value=v)`. -/
def padTo {α : Type*} (n : ℕ) (v : α) (l : List α) : List α :=
  l ++ List.replicate (n - l.length) v

/-- Embedding of `tf.RaggedTensor.to_tensor(default_value=v)` on a rank-3 ragged tensor
`[batch, None(rows), None(cols)]`: every inner row is padded to the overall maximum width and
every row list is padded to the batch maximum row count. -/
def toDense2 {α : Type*} (v : α) (t : List (List (List α))) : List (List (List α)) :=
  t.map (fun rows => padTo (maxLen t) (List.replicate (maxLen t.flatten) v) (rows.map (padTo (maxLen t.flatten) v)))

/-- Width of the last (uniform) axis of a dense rank-3 tensor, `tf.shape(t)[-1]`.  In
TensorFlow this is part of the static shape; here it is read off the first row. -/
def denseLastDim {α : Type*} (t : List (List (List α))) : ℕ := ((t.headD []).headD []).length

/-- Row ids of the flat values of a ragged tensor, starting from row id `b`
(helper for `valueRowids`). -/
def valueRowidsAux {α : Type*} : List (List α) → ℕ → List ℕ
  | [], _ => []
  | r :: rs, b => List.replicate r.length b ++ valueRowidsAux rs (b + 1)

/-- Embedding of `tf.RaggedTensor.value_rowids()`: for every flat value of the ragged tensor,
the index of the row it belongs to (row-major, nondecreasing). -/
def valueRowids {α : Type*} (t : List (List α)) : List ℕ := valueRowidsAux t 0

/-- Partition of a flat value list into rows of the given lengths; the reshaping performed by
`tf.RaggedTensor.with_values` (which keeps the old row splits and installs new values). -/
def splitByLengths {α : Type*} : List ℕ → List α → List (List α)
  | [], _ => []
  | n :: ns, vals => vals.take n :: splitByLengths ns (vals.drop n)

/-- Embedding of `tf.RaggedTensor.from_value_rowids(values, value_rowids, nrows)` for the
nondecreasing row ids produced by `tf.where`: row `b` collects the values whose row id is `b`. -/
def fromValueRowids {α : Type*} (vals : List α) (rowids : List ℕ) (n : ℕ) : List (List α) :=
  (List.range n).map (fun b => ((vals.zip rowids).filter (fun vr => vr.2 == b)).map Prod.fst)

/-- Positions of the non-sentinel entries of a single label row; `wherePositions` produces
exactly these per row in row-major order (reference form used by the theorems below). -/
def rowPositions (row : List ℤ) : List ℕ :=
  (List.range row.length).filter (fun p => row.getD p (-1) != -1)

/-- Row-major coordinates of the entries of a dense integer matrix that differ from the
sentinel `-1`, as produced by `tf.where(arguments_tensor != -1)` in `tasks.py`. -/
def wherePositions (m : List (List ℤ)) : List (ℕ × ℕ) :=
  (List.range m.length).flatMap (fun b =>
    (rowPositions (m.getD b [])).map (fun p => (b, p)))

/-- Embedding of `tf.gather_nd(t, positions)` for 2-dimensional positions: the entry of `t` at
each coordinate pair.  Out-of-range coordinates (an error in TensorFlow) yield the default. -/
def gatherND {α : Type*} (t : List (List α)) (ps : List (ℕ × ℕ)) (d : α) : List α :=
  ps.map (fun q => (t.getD q.1 []).getD q.2 d)

/-- Conversion of ragged ground-truth labels to a dense tensor padded with the sentinel, i.e.
`y_true.to_tensor(default_value=-1)` (after the `squeeze`). -/
def to_dense_neg1 (yt : List (List ℤ)) : List (List ℤ) := yt.map (padTo (maxLen yt) (-1))

/-! ## Scores with `-inf`: `WithBot ℝ` -/

/-- Exponential as applied by TensorFlow to a score that may be `-inf`: `exp (-inf) = 0`. -/
noncomputable def expB (x : WithBot ℝ) : ℝ := x.recBotCoe 0 Real.exp

/-- Sum of exponentials of a score row, `tf.reduce_sum(tf.exp(row), axis=-1)`. -/
noncomputable def sumExp (l : List (WithBot ℝ)) : ℝ := (l.map expB).sum

/-- Embedding of `tf.math.log` on a non-negative float: `log 0 = -inf`, and the ordinary
logarithm on positive reals.  (TensorFlow yields NaN on negative inputs; they are mapped to
`⊥` here and never occur in this module, where `log` is only applied to counts, to `0.0/1.0`
mask values and to sums of exponentials.) -/
noncomputable def tfLog (x : ℝ) : WithBot ℝ := if x ≤ 0 then ⊥ else ((Real.log x : ℝ) : WithBot ℝ)

/-- Embedding of `tf.reduce_max(row, axis=-1)` over the last axis: the maximum of a score row,
`-inf` for an empty row. -/
noncomputable def reduceMax (l : List (WithBot ℝ)) : WithBot ℝ := l.foldr max ⊥

/-- Index of the first occurrence of the running maximum, continuing a scan (helper for
`argmaxL`). -/
def argmaxFrom {α : Type*} [LinearOrder α] : List α → ℕ → ℕ → α → ℕ
  | [], _, bi, _ => bi
  | x :: xs, i, bi, bv => if bv < x then argmaxFrom xs (i + 1) i x else argmaxFrom xs (i + 1) bi bv

/-- Embedding of `tf.argmax(row, axis=-1)`: index of the first occurrence of the maximum.
TensorFlow's behaviour on an empty reduction axis is undefined; the callers below reach it
only through the dummy width-1 context produced by `ragged_logits`, and `0` is returned. -/
def argmaxL {α : Type*} [LinearOrder α] : List α → ℕ
  | [] => 0
  | x :: xs => argmaxFrom xs 1 0 x

/-! ## Embeddings of the functions of `tasks.py` -/

/-- Embedding of the module-level `arguments_filter` (tasks.py lines 25-44): densify the
labels padding with `-1`, take the row-major positions of the non-sentinel entries, and gather
both the labels and the corresponding logit rows at those positions (flat output). -/
def arguments_filter (yt : List (List ℤ)) (yp : List (List (List ℝ)))
    : List ℤ × List (List ℝ) :=
  (gatherND (to_dense_neg1 yt) (wherePositions (to_dense_neg1 yt)) (-1),
   gatherND yp (wherePositions (to_dense_neg1 yt)) [])

/-- Embedding of `ragged_logits` (tasks.py lines 46-65): when the context dimension of the
dense logits is `0`, return a ragged tensor shaped like the labels with a dummy context of
size 1 filled with `log 0 = -inf` (`tf.math.log(tf.zeros_like(y_true))` expanded on the last
axis); otherwise re-raggedify the dense logits using the label row lengths
(`tf.RaggedTensor.from_tensor(y_pred, lengths=y_true.row_lengths())`, which raises when a
length exceeds the dense row count; modelled by `List.take`). -/
def ragged_logits (yTrue : List (List ℤ)) (yPred : List (List (List (WithBot ℝ))))
    : List (List (List (WithBot ℝ))) :=
  if denseLastDim yPred = 0 then
    yTrue.map (fun row => row.map (fun _ => ([⊥] : List (WithBot ℝ))))
  else
    List.zipWith (fun (row : List ℤ) p => p.take row.length) yTrue yPred

/-- Embedding of `tf.nn.sparse_softmax_cross_entropy_with_logits` on one row of finite
logits: `log (Σ exp logits) - logits[label]`. -/
noncomputable def sparse_softmax_cross_entropy (label : ℤ) (logits : List ℝ) : ℝ :=
  Real.log ((logits.map Real.exp).sum) - logits.getD label.toNat 0

/-- Embedding of `LocalArgumentSparseCategoricalCrossentropy.call` (tasks.py lines 93-106):
filter the non-sentinel arguments; when the gathered prediction tensor has size `0` (no
non-sentinel argument, or an empty local context) return zeros shaped like the filtered
labels, otherwise the per-argument sparse softmax cross entropy. -/
noncomputable def LocalArgumentSparseCategoricalCrossentropy.call
    (yt : List (List ℤ)) (yp : List (List (List ℝ))) : List ℝ :=
  if (((arguments_filter yt yp).2).map List.length).sum = 0 then
    ((arguments_filter yt yp).1).map (fun _ => (0 : ℝ))
  else
    List.zipWith sparse_softmax_cross_entropy ((arguments_filter yt yp).1) ((arguments_filter yt yp).2)

/-- Embedding of the static method `ArgumentSparseCategoricalCrossentropy.arguments_filter`
(tasks.py lines 135-169): like the module-level `arguments_filter`, but the filtered labels
and logit rows are regrouped by example via `tf.RaggedTensor.from_value_rowids`. -/
def ArgumentSparseCategoricalCrossentropy.arguments_filter
    (yt : List (List ℤ)) (yp : List (List (List ℝ)))
    : List (List ℤ) × List (List (List ℝ)) :=
  (fromValueRowids (gatherND (to_dense_neg1 yt) (wherePositions (to_dense_neg1 yt)) (-1))
      ((wherePositions (to_dense_neg1 yt)).map Prod.fst) yt.length,
   fromValueRowids (gatherND yp (wherePositions (to_dense_neg1 yt)) [])
      ((wherePositions (to_dense_neg1 yt)).map Prod.fst) yt.length)

/-- Embedding of `ArgumentSparseCategoricalCrossentropy.call` (tasks.py lines 206-231) with
its `sum_loss_over_tactic` flag: per-position losses are the negated logits gathered at the
ground-truth indices (`-tf.gather(arguments_pred, arguments_true, batch_dims=2)`; the logits
are assumed normalized); with the flag the losses are summed per batch example, without it the
flat value list is returned. -/
noncomputable def ArgumentSparseCategoricalCrossentropy.call
    (sum_loss_over_tactic : Bool) (yt : List (List ℤ)) (yp : List (List (List ℝ))) : List ℝ :=
  let filtered := ArgumentSparseCategoricalCrossentropy.arguments_filter yt yp
  let argLosses := List.zipWith
    (List.zipWith (fun (l : ℤ) (row : List ℝ) => -(row.getD l.toNat 0))) filtered.1 filtered.2
  if sum_loss_over_tactic then argLosses.map List.sum else argLosses.flatten

/-- Per-example non-sentinel argument losses in original position order: for every example,
for every argument position whose label is not the sentinel, the negated logit at the label.
Reference form used to state what `ArgumentSparseCategoricalCrossentropy.call` computes. -/
noncomputable def perExampleArgLosses (yt : List (List ℤ)) (yp : List (List (List ℝ)))
    : List (List ℝ) :=
  (List.range yt.length).map (fun b =>
    (rowPositions (yt.getD b [])).map
      (fun p => -(((yp.getD b []).getD p []).getD ((yt.getD b []).getD p (-1)).toNat 0)))

/-- Embedding of `GlobalArgumentPrediction._normalize_logits` (tasks.py lines 1033-1049),
acting on the local and global logit rows of one (batch element, argument position) pair; the
tensor op applies this computation independently to every such pair (all reductions are over
`axis=-1` with broadcasting).  The shared maximum over BOTH pools is subtracted from every
entry, then the shared constant `norm = -log (Σ exp local + Σ exp global)` is added to every
entry of both rows.  The `⊥` branch is the degenerate case in which both rows are empty or
every entry is `-inf`; TensorFlow produces NaNs there, and all theorems below exclude it by
hypothesis. -/
noncomputable def GlobalArgumentPrediction.normalize_logits (ll gl : List (WithBot ℝ)) :
    List (WithBot ℝ) × List (WithBot ℝ) :=
  WithBot.recBotCoe (ll, gl)
    (fun m =>
      let ll1 := ll.map (fun x => x.map (fun v => v - m))
      let gl1 := gl.map (fun x => x.map (fun v => v - m))
      let norm := -Real.log (sumExp ll1 + sumExp gl1)
      (ll1.map (fun x => x.map (fun v => v + norm)), gl1.map (fun x => x.map (fun v => v + norm))))
    (max (reduceMax ll) (reduceMax gl))

/-- Embedding of `GlobalArgumentPrediction._global_arguments_logits_mask` (tasks.py lines
1014-1031) for one batch element: `tf.scatter_nd` builds a length-`G` float vector holding at
each vocabulary index the sum of the `1.0` updates scattered there (the number of occurrences
of the index in `global_context_ids`), and `tf.math.log` of that vector is the additive mask
(`log 1 = 0` for available entries, `log 0 = -inf` for unavailable ones). -/
noncomputable def GlobalArgumentPrediction.global_arguments_logits_mask
    (ids : List ℕ) (G : ℕ) : List (WithBot ℝ) :=
  ((List.range G).map (fun j => ((ids.count j : ℕ) : ℝ))).map tfLog

/-! ## Inference-time tactic masks and top-k selection -/

/-- Mask of the zero-argument tactics, `tf.constant(tactic_index_to_numargs) == 0`.  The
tactic count `tactic_num` equals the length of the `tactic_index_to_numargs` table. -/
def no_argument_tactics_mask (numargs : List ℕ) : List Bool := numargs.map (fun n => n == 0)

/-- Mask permitting every tactic, `tf.ones(tactic_num, dtype=bool)`. -/
def all_tactics_mask (T : ℕ) : List Bool := List.replicate T true

/-- Per-example tactic mask of `TacticPrediction.create_inference_model` (tasks.py lines
604-612): the zero-argument mask repeated for every batch element (the base task predicts no
arguments, so only zero-argument tactics are ever permitted). -/
def base_proofstate_tactic_mask (numargs : List ℕ) (batch : ℕ) : List (List Bool) :=
  List.replicate batch (no_argument_tactics_mask numargs)

/-- Per-example tactic mask of `LocalArgumentPrediction.create_inference_model` (tasks.py
lines 898-912): for an example with an empty local context only the zero-argument tactics are
permitted, otherwise all tactics (`tf.where` on `local_context_ids.row_lengths() == 0`). -/
def local_proofstate_tactic_mask (numargs : List ℕ) (localCtxLens : List ℕ) : List (List Bool) :=
  localCtxLens.map (fun len =>
    if len = 0 then no_argument_tactics_mask numargs else all_tactics_mask numargs.length)

/-- Per-example tactic mask of `GlobalArgumentPrediction.create_inference_model` (tasks.py
lines 1165-1182): only the zero-argument tactics are permitted when the example's local
context is empty AND the (batch-constant) global context is empty, all tactics otherwise. -/
def global_proofstate_tactic_mask (numargs : List ℕ) (localCtxLens : List ℕ)
    (globalCtxSize : ℕ) : List (List Bool) :=
  localCtxLens.map (fun len =>
    if len = 0 ∧ globalCtxSize = 0 then no_argument_tactics_mask numargs
    else all_tactics_mask numargs.length)

/-- Conjunction `proofstate_tactic_mask & tactic_mask` of the per-example mask with the
externally supplied tactic mask, as passed to `_top_k_tactics` by all three inference
models. -/
def combine_masks (m ext : List (List Bool)) : List (List Bool) :=
  List.zipWith (List.zipWith (fun a b => a && b)) m ext

/-- Embedding of `tf.math.log_softmax(row, axis=-1)`: subtract `log (Σ exp row)` from every
entry; `-inf` entries stay `-inf`.  (On an all-`-inf` row TensorFlow produces NaNs; here the
row is returned unchanged, and the theorems below never rely on that case.) -/
noncomputable def log_softmax (l : List (WithBot ℝ)) : List (WithBot ℝ) :=
  l.map (fun x => x.map (fun v => v - Real.log (sumExp l)))

/-- Embedding of `tf.math.top_k(row, k)` on one row: the `k` largest entries with their
indices, values in descending order, ties broken towards the smaller index (modelled by a
total sort of the indexed entries).  TensorFlow raises when `k` exceeds the row length; here
the result is simply truncated. -/
noncomputable def top_k (l : List (WithBot ℝ)) (k : ℕ) : List ℕ × List (WithBot ℝ) :=
  ((((l.enum).mergeSort (fun a b =>
      if b.2 < a.2 then true else if a.2 < b.2 then false else decide (a.1 ≤ b.1))).take k).map Prod.fst,
   (((l.enum).mergeSort (fun a b =>
      if b.2 < a.2 then true else if a.2 < b.2 then false else decide (a.1 ≤ b.1))).take k).map Prod.snd)

/-- Embedding of `TacticPrediction._top_k_tactics` (tasks.py lines 535-543) on one batch row:
add `log (cast mask)` (`0` for permitted, `-inf` for masked tactics) to the logits, take the
log-softmax, and return the top `tactic_expand_bound` indices and values. -/
noncomputable def top_k_tactics (tactic_logits : List ℝ) (tactic_mask : List Bool) (k : ℕ) :
    List ℕ × List (WithBot ℝ) :=
  top_k (log_softmax (List.zipWith (fun (r : ℝ) (b : Bool) => (r : WithBot ℝ) + tfLog (if b then 1 else 0))
    tactic_logits tactic_mask)) k

/-! ## Strict sequence accuracy of the global-argument task -/

/-- Embedding of `tf.keras.metrics.sparse_categorical_accuracy` on one example: `1.0` when
the arg-max of the logits equals the label, else `0.0`. -/
noncomputable def sparse_categorical_accuracy (label : ℕ) (logits : List ℝ) : ℝ :=
  if argmaxL logits = label then 1 else 0

/-- Embedding of the strict-accuracy computation of `GlobalArgumentModel.compute_metrics`
(tasks.py lines 319-361), returning the per-example strict scores that are fed to the running
mean `strict_accuracy`.  Both logit inputs are the ragged
`[batch, None(args), None(context)]` outputs of the train model; following the source they
are densified with `-inf`, re-raggedified against the ground-truth row lengths with
`ragged_logits`, and reduced with `reduce_max` / `argmax` per position.  The ground truth is
correct at a position when the pool choice (`local iff local_true >= global_true`) matches the
pool with the larger best logit (`local iff local_best >= global_best`) and the predicted
index in the chosen pool matches the non-sentinel ground-truth index. -/
noncomputable def GlobalArgumentModel.compute_strict_scores
    (tacticTrue : List ℕ) (tacticLogits : List (List ℝ))
    (localTrue globalTrue : List (List ℤ))
    (localLogits globalLogits : List (List (List (WithBot ℝ)))) : List ℝ :=
  let tacticAcc := List.zipWith sparse_categorical_accuracy tacticTrue tacticLogits
  let localR := ragged_logits localTrue (toDense2 ⊥ localLogits)
  let localBest := localR.map (fun rows => rows.map reduceMax)
  let localPred := localR.map (fun rows => rows.map (fun r => (argmaxL r : ℤ)))
  let globalR := ragged_logits globalTrue (toDense2 ⊥ globalLogits)
  let globalBest := globalR.map (fun rows => rows.map reduceMax)
  let globalPred := globalR.map (fun rows => rows.map (fun r => (argmaxL r : ℤ)))
  let argTrueIsLocal := List.zipWith (List.zipWith (fun (l g : ℤ) => decide (g ≤ l))) localTrue globalTrue
  let argTrueIx := List.zipWith (List.zipWith (fun (l g : ℤ) => if g ≤ l then l else g)) localTrue globalTrue
  let argPredIsLocal := List.zipWith (List.zipWith (fun (lb gb : WithBot ℝ) => decide (gb ≤ lb))) localBest globalBest
  let argPredIx := List.zipWith (List.zipWith (fun (p : WithBot ℝ × ℤ) (q : WithBot ℝ × ℤ) =>
      if q.1 ≤ p.1 then p.2 else q.2))
    (List.zipWith List.zip localBest localPred) (List.zipWith List.zip globalBest globalPred)
  let seqIsLocal := List.zipWith (fun rt rp => (List.zipWith (fun (x y : Bool) => x == y) rt rp).all id)
    argTrueIsLocal argPredIsLocal
  let seqIx := List.zipWith (fun rt rp => (List.zipWith (fun (x y : ℤ) => x == y) rt rp).all id)
    argTrueIx argPredIx
  let seqArgAcc := List.zipWith (fun (a b : Bool) => if a && b then (1 : ℝ) else 0) seqIsLocal seqIx
  List.zipWith (fun (x y : ℝ) => x * y) tacticAcc seqArgAcc

/-! ## Construction-time configuration surface -/

/-- String key for the base tactic prediction task. -/
def BASE_TACTIC_PREDICTION : String := "base_tactic_prediction"

/-- String key for the local argument prediction task. -/
def LOCAL_ARGUMENT_PREDICTION : String := "local_argument_prediction"

/-- String key for the global argument prediction task. -/
def GLOBAL_ARGUMENT_PREDICTION : String := "global_argument_prediction"

/-- Tags for the three prediction task classes returned by
`get_prediction_task_constructor`. -/
inductive PredictionTaskKind : Type
  | tacticPrediction : PredictionTaskKind
  | localArgumentPrediction : PredictionTaskKind
  | globalArgumentPrediction : PredictionTaskKind
deriving DecidableEq

/-- Embedding of `get_prediction_task_constructor` (tasks.py lines 1344-1353): map a task-kind
string to its constructor, raising `ValueError` (modelled with `Except.error`) on anything
else. -/
def get_prediction_task_constructor (s : String) : Except String PredictionTaskKind :=
  if s = BASE_TACTIC_PREDICTION then .ok .tacticPrediction
  else if s = LOCAL_ARGUMENT_PREDICTION then .ok .localArgumentPrediction
  else if s = GLOBAL_ARGUMENT_PREDICTION then .ok .globalArgumentPrediction
  else .error (s ++ " is not a valid prediction task type")

/-- State of a `QueryKeyMul` layer: the stored multiplication method selector. -/
structure QueryKeyMul : Type where
  method : String
deriving DecidableEq

/-- Embedding of `QueryKeyMul.__init__` (tasks.py lines 657-664): the method string (default
`"broadcast_ragged"`) is stored without any validation, so construction never raises. -/
def QueryKeyMul.init (method : String := "broadcast_ragged") : Except String QueryKeyMul :=
  .ok ⟨method⟩

/-- Dot product of two hidden-state vectors, `tf.einsum("j,j->", u, v)`. -/
def dot (u v : List ℝ) : ℝ := (List.zipWith (fun a b => a * b) u v).sum

/-- Embedding of `tf.einsum("ij,kj->ik", Q, K)`: the matrix of dot products of the rows of
`Q` with the rows of `K` (also the per-batch-element slice of `"ijl,ikl->ijk"`). -/
def einsum_ij_kj_ik (Q K : List (List ℝ)) : List (List ℝ) :=
  Q.map (fun q => K.map (fun kr => dot q kr))

/-- Embedding of `QueryKeyMul._mul_map_fn` (tasks.py lines 666-677): map the einsum
`"ij,kj->ik"` over the zipped batches of queries and keys. -/
def QueryKeyMul.mul_map_fn (queries keys : List (List (List ℝ))) : List (List (List ℝ)) :=
  List.zipWith einsum_ij_kj_ik queries keys

/-- Embedding of `QueryKeyMul._mul_broadcast_ragged` (tasks.py lines 679-686): gather each
example's key list once per argument position (`tf.gather(keys, queries.value_rowids())`),
gather each argument's query vector once per candidate
(`tf.gather(queries.values, keys_values.value_rowids())`), take elementwise dot products
(`tf.einsum("ij,ij->i", ...)`), and reassemble the ragged structure with `with_values`. -/
def QueryKeyMul.mul_broadcast_ragged (queries keys : List (List (List ℝ))) :
    List (List (List ℝ)) :=
  let keysValues := (valueRowids queries).map (fun b => keys.getD b [])
  let queriesVV := (valueRowids keysValues).map (fun i => queries.flatten.getD i [])
  let logitsVV := List.zipWith (fun kv qv => dot kv qv) keysValues.flatten queriesVV
  let logitsValues := splitByLengths (keysValues.map List.length) logitsVV
  splitByLengths (queries.map List.length) logitsValues

/-- Embedding of `tf.RaggedTensor.to_tensor()` (zero fill) on a `[batch, None(rows), hdim]`
ragged tensor: pad every example's row list to the batch maximum with zero vectors of the
(static, uniform) hidden dimension, read off the first row here. -/
def toDenseVec (t : List (List (List ℝ))) : List (List (List ℝ)) :=
  t.map (padTo (maxLen t) (List.replicate (denseLastDim t) 0))

/-- Embedding of `QueryKeyMul._mul_ragged_to_dense_to_ragged` (tasks.py lines 688-697):
densify queries and keys with zero padding, take the batched einsum `"ijl,ikl->ijk"`, then
re-raggedify: outer rows truncated to the query row lengths
(`tf.RaggedTensor.from_tensor(logits_dense, lengths=queries.row_lengths())`), inner rows
truncated to the per-example key row lengths gathered per argument position. -/
def QueryKeyMul.mul_ragged_to_dense_to_ragged (queries keys : List (List (List ℝ))) :
    List (List (List ℝ)) :=
  let logitsDense := List.zipWith einsum_ij_kj_ik (toDenseVec queries) (toDenseVec keys)
  let logitsPart := List.zipWith (fun (ld : List (List ℝ)) (q : List (List ℝ)) => ld.take q.length)
    logitsDense queries
  let lengthsValues := (valueRowids queries).map (fun b => (keys.getD b []).length)
  let logitsValues := List.zipWith (fun (row : List ℝ) n => row.take n) logitsPart.flatten lengthsValues
  splitByLengths (logitsPart.map List.length) logitsValues

/-- Embedding of `QueryKeyMul.call` (tasks.py lines 699-714): dispatch on the stored method
string, raising (`Except.error`) on an unsupported method.  The dispatch happens inside
`call`, i.e. on the first forward/build pass of the layer, not in `__init__`. -/
def QueryKeyMul.call (layer : QueryKeyMul) (queries keys : List (List (List ℝ))) :
    Except String (List (List (List ℝ))) :=
  if layer.method = "map_fn" then .ok (QueryKeyMul.mul_map_fn queries keys)
  else if layer.method = "broadcast_ragged" then .ok (QueryKeyMul.mul_broadcast_ragged queries keys)
  else if layer.method = "ragged_to_dense_to_ragged" then
    .ok (QueryKeyMul.mul_ragged_to_dense_to_ragged queries keys)
  else .error ("Unsupported multiplication method: " ++ layer.method)

/-! ## Basic lemmas about the score primitives -/

theorem expB_bot : expB ⊥ = 0 := rfl

theorem expB_coe (r : ℝ) : expB (r : WithBot ℝ) = Real.exp r := rfl

theorem expB_nonneg (x : WithBot ℝ) : 0 ≤ expB x := by
  induction x using WithBot.recBotCoe with
  | bot => simp [expB_bot]
  | coe r => exact le_of_lt (by rw [expB_coe]; exact Real.exp_pos r)

theorem sumExp_nil : sumExp [] = 0 := rfl

theorem sumExp_cons (x : WithBot ℝ) (l : List (WithBot ℝ)) :
    sumExp (x :: l) = expB x + sumExp l := by
  simp [sumExp]

theorem sumExp_nonneg (l : List (WithBot ℝ)) : 0 ≤ sumExp l := by
  induction l with
  | nil => simp [sumExp_nil]
  | cons x t ih => rw [sumExp_cons]; exact add_nonneg (expB_nonneg x) ih

theorem sumExp_pos_of_mem {l : List (WithBot ℝ)} {x : WithBot ℝ}
    (hx : x ∈ l) (hb : x ≠ ⊥) : 0 < sumExp l := by
  induction l with
  | nil => cases hx
  | cons y t ih =>
    rw [sumExp_cons]
    rcases List.mem_cons.mp hx with h | h
    · subst h
      obtain ⟨r, rfl⟩ := WithBot.ne_bot_iff_exists.mp hb
      have : 0 < expB (r : WithBot ℝ) := by rw [expB_coe]; exact Real.exp_pos r
      exact add_pos_of_pos_of_nonneg this (sumExp_nonneg t)
    · exact add_pos_of_nonneg_of_pos (expB_nonneg y) (ih h)

theorem expB_map_add (x : WithBot ℝ) (c : ℝ) :
    expB (x.map (fun v => v + c)) = expB x * Real.exp c := by
  induction x using WithBot.recBotCoe with
  | bot => simp [WithBot.map_bot, expB_bot]
  | coe r => rw [WithBot.map_coe, expB_coe, expB_coe, Real.exp_add]

theorem sumExp_map_add (l : List (WithBot ℝ)) (c : ℝ) :
    sumExp (l.map (fun x => x.map (fun v => v + c))) = Real.exp c * sumExp l := by
  induction l with
  | nil => simp [sumExp_nil]
  | cons x t ih =>
    rw [List.map_cons, sumExp_cons, sumExp_cons, ih, expB_map_add]
    ring

theorem le_reduceMax {l : List (WithBot ℝ)} {x : WithBot ℝ} (hx : x ∈ l) :
    x ≤ reduceMax l := by
  induction l with
  | nil => cases hx
  | cons y t ih =>
    rcases List.mem_cons.mp hx with h | h
    · subst h; exact le_max_left _ _
    · exact le_trans (ih h) (le_max_right _ _)

/-- C1: for every argument position with at least one available candidate in either pool (an
entry that is not `-inf`), `GlobalArgumentPrediction._normalize_logits` subtracts one shared
normalization constant (built from the maximum over BOTH pools) from every raw logit of both
pools, so that the exponentials of the returned normalized local logits plus the exponentials
of the returned normalized global logits sum to exactly 1. -/
theorem normalize_logits_joint_sum_one (ll gl : List (WithBot ℝ))
    (h : ∃ x ∈ ll ++ gl, x ≠ ⊥) :
    sumExp (GlobalArgumentPrediction.normalize_logits ll gl).1 +
      sumExp (GlobalArgumentPrediction.normalize_logits ll gl).2 = 1 := by
  obtain ⟨x, hx, hxb⟩ := h
  obtain ⟨r, rfl⟩ := WithBot.ne_bot_iff_exists.mp hxb
  have hle : (r : WithBot ℝ) ≤ max (reduceMax ll) (reduceMax gl) := by
    rcases List.mem_append.mp hx with h | h
    · exact le_trans (le_reduceMax h) (le_max_left _ _)
    · exact le_trans (le_reduceMax h) (le_max_right _ _)
  have hne : max (reduceMax ll) (reduceMax gl) ≠ ⊥ :=
    LT.lt.ne' (lt_of_lt_of_le (WithBot.bot_lt_coe r) hle)
  obtain ⟨m, hm⟩ := WithBot.ne_bot_iff_exists.mp hne
  rw [GlobalArgumentPrediction.normalize_logits, ← hm, WithBot.recBotCoe_coe]
  set ll1 := ll.map (fun x => x.map (fun v => v - m)) with hll1
  set gl1 := gl.map (fun x => x.map (fun v => v - m)) with hgl1
  set z := sumExp ll1 + sumExp gl1 with hz
  have hzpos : 0 < z := by
    rcases List.mem_append.mp hx with h | h
    · have : ((r - m : ℝ) : WithBot ℝ) ∈ ll1 := by
        rw [hll1]
        exact List.mem_map_of_mem _ h
      exact add_pos_of_pos_of_nonneg (sumExp_pos_of_mem this (WithBot.coe_ne_bot)) (sumExp_nonneg gl1)
    · have : ((r - m : ℝ) : WithBot ℝ) ∈ gl1 := by
        rw [hgl1]
        exact List.mem_map_of_mem _ h
      exact add_pos_of_nonneg_of_pos (sumExp_nonneg ll1) (sumExp_pos_of_mem this (WithBot.coe_ne_bot))
  simp only []
  rw [sumExp_map_add, sumExp_map_add, ← mul_add, ← hz, Real.exp_neg, Real.exp_log hzpos]
  exact inv_mul_cancel₀ (ne_of_gt hzpos)

theorem normalize_logits_joint_sum_one_witness :
    (∃ x ∈ ([((0 : ℝ) : WithBot ℝ)] ++ ([] : List (WithBot ℝ))), x ≠ ⊥) ∧
    sumExp (GlobalArgumentPrediction.normalize_logits [((0 : ℝ) : WithBot ℝ)] []).1 +
      sumExp (GlobalArgumentPrediction.normalize_logits [((0 : ℝ) : WithBot ℝ)] []).2 = 1 :=
  ⟨⟨((0 : ℝ) : WithBot ℝ), by simp, WithBot.coe_ne_bot⟩,
   normalize_logits_joint_sum_one _ _ ⟨((0 : ℝ) : WithBot ℝ), by simp, WithBot.coe_ne_bot⟩⟩

theorem getD_map_of_lt {α β : Type*} (f : α → β) (l : List α) (j : ℕ) (d : β)
    (hj : j < l.length) : (l.map f).getD j d = f l[j] := by
  rw [List.getD_eq_getElem _ _ (by simpa using hj), List.getElem_map]

theorem normalize_logits_snd_entry_bot (ll gl : List (WithBot ℝ)) (j : ℕ)
    (hj : j < gl.length) (hbot : gl[j] = ⊥)
    (h : ∃ x ∈ ll ++ gl, x ≠ ⊥) :
    (GlobalArgumentPrediction.normalize_logits ll gl).2.getD j 0 = ⊥ := by
  obtain ⟨x, hx, hxb⟩ := h
  obtain ⟨r, rfl⟩ := WithBot.ne_bot_iff_exists.mp hxb
  have hle : (r : WithBot ℝ) ≤ max (reduceMax ll) (reduceMax gl) := by
    rcases List.mem_append.mp hx with h | h
    · exact le_trans (le_reduceMax h) (le_max_left _ _)
    · exact le_trans (le_reduceMax h) (le_max_right _ _)
  have hne : max (reduceMax ll) (reduceMax gl) ≠ ⊥ :=
    LT.lt.ne' (lt_of_lt_of_le (WithBot.bot_lt_coe r) hle)
  obtain ⟨m, hm⟩ := WithBot.ne_bot_iff_exists.mp hne
  rw [GlobalArgumentPrediction.normalize_logits, ← hm, WithBot.recBotCoe_coe]
  simp only []
  rw [getD_map_of_lt _ _ _ _ (by simpa using hj), List.getElem_map, hbot,
    WithBot.map_bot, WithBot.map_bot]

theorem global_mask_length (ids : List ℕ) (G : ℕ) :
    (GlobalArgumentPrediction.global_arguments_logits_mask ids G).length = G := by
  simp [GlobalArgumentPrediction.global_arguments_logits_mask]

theorem global_mask_entry (ids : List ℕ) (G i : ℕ) (hi : i < G) :
    (GlobalArgumentPrediction.global_arguments_logits_mask ids G).getD i 0 =
      tfLog ((ids.count i : ℕ) : ℝ) := by
  rw [GlobalArgumentPrediction.global_arguments_logits_mask,
    getD_map_of_lt _ _ _ _ (by simpa using hi), List.getElem_map, List.getElem_range]

/-- C2: with `dynamic_global_context = True`, every global-vocabulary entry not listed in an
example's `global_context_ids` receives the additive mask `log 0 = -inf` before
normalization, so that its normalized probability is exactly `0`, while listed entries
receive the additive mask `log 1 = 0`.  The hypotheses record that the ids are a duplicate-
free subset of the vocabulary (they model a set), that the raw global logit row spans the
vocabulary, and that at least one entry is available (otherwise TensorFlow's normalization
would produce NaN). -/
theorem dynamic_global_context_mask_zero_prob
    (lraw grow : List ℝ) (ids : List ℕ) (G j : ℕ)
    (hnd : ids.Nodup) (hrange : ∀ i ∈ ids, i < G) (hlen : grow.length = G)
    (hj : j < G) (hjn : j ∉ ids) (havail : ids ≠ []) :
    (GlobalArgumentPrediction.global_arguments_logits_mask ids G).getD j 0 = ⊥ ∧
    (∀ i ∈ ids,
      (GlobalArgumentPrediction.global_arguments_logits_mask ids G).getD i 0 = (0 : WithBot ℝ)) ∧
    expB ((GlobalArgumentPrediction.normalize_logits (lraw.map WithBot.some)
      (List.zipWith (fun a b => a + b) (grow.map WithBot.some)
        (GlobalArgumentPrediction.global_arguments_logits_mask ids G))).2.getD j 0) = 0 := by
  have hmask_out : (GlobalArgumentPrediction.global_arguments_logits_mask ids G).getD j 0 = ⊥ := by
    rw [global_mask_entry _ _ _ hj, List.count_eq_zero.mpr hjn]
    simp [tfLog]
  have hmask_in : ∀ i ∈ ids,
      (GlobalArgumentPrediction.global_arguments_logits_mask ids G).getD i 0 = (0 : WithBot ℝ) := by
    intro i hi
    rw [global_mask_entry _ _ _ (hrange i hi), List.count_eq_one_of_mem hnd hi]
    norm_num [tfLog, Real.log_one]
  refine ⟨hmask_out, hmask_in, ?_⟩
  set mask := GlobalArgumentPrediction.global_arguments_logits_mask ids G with hmaskdef
  set glM := List.zipWith (fun (a b : WithBot ℝ) => a + b) (grow.map WithBot.some) mask
    with hglM
  have hglMlen : glM.length = G := by
    rw [hglM, List.length_zipWith, List.length_map, hlen, global_mask_length, min_self]
  have hjG : j < glM.length := by rw [hglMlen]; exact hj
  have hbound : ∀ i, i < G →
      i < (List.zipWith (fun (a b : WithBot ℝ) => a + b) (List.map WithBot.some grow) mask).length := by
    intro i hi
    rw [List.length_zipWith, List.length_map, hlen, hmaskdef, global_mask_length, min_self]
    exact hi
  have hglMj' : glM.getD j 0 = ⊥ := by
    rw [hglM, List.getD_eq_getElem _ _ (hbound j hj), List.getElem_zipWith, List.getElem_map,
      ← List.getD_eq_getElem mask 0 (show j < mask.length by
        rw [hmaskdef, global_mask_length]; exact hj),
      hmask_out, WithBot.add_bot]
  have hglMj : glM[j] = ⊥ := by
    rw [← List.getD_eq_getElem glM 0 hjG]; exact hglMj'
  obtain ⟨i0, hi0⟩ := List.exists_mem_of_ne_nil ids havail
  have hi0G : i0 < G := hrange i0 hi0
  have hi0lt : i0 < glM.length := by rw [hglMlen]; exact hi0G
  have hfin : ∃ x ∈ lraw.map WithBot.some ++ glM, x ≠ ⊥ := by
    refine ⟨glM.getD i0 0, ?_, ?_⟩
    · rw [List.getD_eq_getElem glM 0 hi0lt]
      exact List.mem_append_right _ (List.getElem_mem hi0lt)
    · rw [hglM, List.getD_eq_getElem _ _ (hbound i0 hi0G), List.getElem_zipWith, List.getElem_map,
        ← List.getD_eq_getElem mask 0 (show i0 < mask.length by
          rw [hmaskdef, global_mask_length]; exact hi0G),
        hmask_in i0 hi0, add_zero]
      exact WithBot.coe_ne_bot
  rw [normalize_logits_snd_entry_bot _ _ j hjG hglMj hfin]
  exact expB_bot

theorem dynamic_global_context_mask_zero_prob_witness :
    ([0] : List ℕ).Nodup ∧ ((1 : ℕ) ∉ ([0] : List ℕ)) ∧
    ((GlobalArgumentPrediction.global_arguments_logits_mask [0] 2).getD 1 0 = ⊥ ∧
     (∀ i ∈ ([0] : List ℕ),
       (GlobalArgumentPrediction.global_arguments_logits_mask [0] 2).getD i 0 = (0 : WithBot ℝ)) ∧
     expB ((GlobalArgumentPrediction.normalize_logits (([] : List ℝ).map WithBot.some)
       (List.zipWith (fun a b => a + b) (([1, 2] : List ℝ).map WithBot.some)
         (GlobalArgumentPrediction.global_arguments_logits_mask [0] 2))).2.getD 1 0) = 0) :=
  ⟨by decide, by decide,
   dynamic_global_context_mask_zero_prob [] [1, 2] [0] 2 1 (by decide) (by decide) rfl
     (by decide) (by decide) (by decide)⟩

theorem getD_zipWith_of_lt {α β γ : Type*} (f : α → β → γ) (l : List α) (l' : List β)
    (j : ℕ) (d : γ) (h1 : j < l.length) (h2 : j < l'.length) :
    (List.zipWith f l l').getD j d = f l[j] l'[j] := by
  rw [List.getD_eq_getElem _ _ (by rw [List.length_zipWith]; exact lt_min h1 h2),
    List.getElem_zipWith]

/-- C10: when the candidate-context dimension of the dense logits tensor is `0`,
`ragged_logits` returns a ragged tensor whose row lengths come from the ground-truth argument
counts and whose dummy context has size 1 with every logit equal to `log 0 = -inf`; when the
context dimension is non-zero, it returns the input logits with each example's rows truncated
to the ground truth's per-example argument count. -/
theorem ragged_logits_characterization (yTrue : List (List ℤ))
    (yPred : List (List (List (WithBot ℝ)))) (b : ℕ)
    (hb1 : b < yTrue.length) (hb2 : b < yPred.length) :
    (denseLastDim yPred = 0 →
      ((ragged_logits yTrue yPred).getD b []).length = (yTrue.getD b []).length ∧
      ∀ a, a < (yTrue.getD b []).length →
        ((ragged_logits yTrue yPred).getD b []).getD a [] = [⊥]) ∧
    (denseLastDim yPred ≠ 0 →
      (ragged_logits yTrue yPred).getD b [] = (yPred.getD b []).take (yTrue.getD b []).length) := by
  constructor
  · intro h
    rw [ragged_logits, if_pos h, getD_map_of_lt _ _ _ _ hb1, List.getD_eq_getElem yTrue [] hb1]
    constructor
    · rw [List.length_map]
    · intro a ha
      rw [getD_map_of_lt _ _ _ _ ha]
  · intro h
    rw [ragged_logits, if_neg h, getD_zipWith_of_lt _ _ _ _ _ hb1 hb2,
      List.getD_eq_getElem yTrue [] hb1, List.getD_eq_getElem yPred [] hb2]

theorem ragged_logits_characterization_witness :
    denseLastDim [[[((1 : ℝ) : WithBot ℝ)], [((2 : ℝ) : WithBot ℝ)], [((0 : ℝ) : WithBot ℝ)]]] ≠ 0 ∧
    (ragged_logits [[3, -1]]
        [[[((1 : ℝ) : WithBot ℝ)], [((2 : ℝ) : WithBot ℝ)], [((0 : ℝ) : WithBot ℝ)]]]).getD 0 [] =
      ([[((1 : ℝ) : WithBot ℝ)], [((2 : ℝ) : WithBot ℝ)], [((0 : ℝ) : WithBot ℝ)]]).take
        ([(3 : ℤ), -1]).length :=
  ⟨by simp [denseLastDim],
   (ragged_logits_characterization [[3, -1]]
      [[[((1 : ℝ) : WithBot ℝ)], [((2 : ℝ) : WithBot ℝ)], [((0 : ℝ) : WithBot ℝ)]]] 0
      (by decide) (by decide)).2 (by simp [denseLastDim])⟩

theorem combine_masks_entry (m ext : List (List Bool)) (b t : ℕ)
    (hb1 : b < m.length) (hb2 : b < ext.length)
    (ht1 : t < (m.getD b []).length) (ht2 : t < (ext.getD b []).length) :
    ((combine_masks m ext).getD b []).getD t false =
      ((m.getD b []).getD t false && (ext.getD b []).getD t false) := by
  rw [List.getD_eq_getElem m [] hb1] at ht1 ⊢
  rw [List.getD_eq_getElem ext [] hb2] at ht2 ⊢
  rw [combine_masks, getD_zipWith_of_lt _ _ _ _ _ hb1 hb2, getD_zipWith_of_lt _ _ _ _ _ ht1 ht2,
    List.getD_eq_getElem _ _ ht1, List.getD_eq_getElem _ _ ht2]

/-- C4: in each of the three inference models, the boolean mask of permitted tactics passed to
`_top_k_tactics` (the top-K selection over the masked log-softmax) is the conjunction of the
externally supplied tactic mask with a per-example mask that permits only zero-argument
tactics when the example's candidate context is empty, and permits all tactics otherwise.
For the base tactic task there are no argument candidate pools (the candidate context is
always empty) and only zero-argument tactics are permitted; for the local-argument task the
context is the local context; for the global-argument task the context is empty only when
both the local context and the global context are empty. -/
theorem inference_tactic_mask_conjunction (numargs : List ℕ) (ext : List (List Bool))
    (localCtxLens : List ℕ) (G B b t : ℕ)
    (ht : t < numargs.length) (hbB : b < B) (hbl : b < localCtxLens.length)
    (hbe : b < ext.length) (hte : t < (ext.getD b []).length) :
    ((combine_masks (base_proofstate_tactic_mask numargs B) ext).getD b []).getD t false
      = ((numargs.getD t 1 == 0) && (ext.getD b []).getD t false) ∧
    ((combine_masks (local_proofstate_tactic_mask numargs localCtxLens) ext).getD b []).getD t false
      = ((if localCtxLens.getD b 1 = 0 then numargs.getD t 1 == 0 else true)
          && (ext.getD b []).getD t false) ∧
    ((combine_masks (global_proofstate_tactic_mask numargs localCtxLens G) ext).getD b []).getD t false
      = ((if localCtxLens.getD b 1 = 0 ∧ G = 0 then numargs.getD t 1 == 0 else true)
          && (ext.getD b []).getD t false) := by
  have hnum : numargs.getD t 1 = numargs[t] := List.getD_eq_getElem numargs 1 ht
  have hctx : localCtxLens.getD b 1 = localCtxLens[b] := List.getD_eq_getElem localCtxLens 1 hbl
  have hnoarg_len : (no_argument_tactics_mask numargs).length = numargs.length := by
    rw [no_argument_tactics_mask, List.length_map]
  have hnoarg : (no_argument_tactics_mask numargs).getD t false = (numargs.getD t 1 == 0) := by
    rw [no_argument_tactics_mask, getD_map_of_lt _ _ _ _ ht, hnum]
  have hall : (all_tactics_mask numargs.length).getD t false = true := by
    rw [all_tactics_mask, List.getD_eq_getElem _ _ (by rw [List.length_replicate]; exact ht),
      List.getElem_replicate]
  refine ⟨?_, ?_, ?_⟩
  · have hlen0 : b < (base_proofstate_tactic_mask numargs B).length := by
      rw [base_proofstate_tactic_mask, List.length_replicate]; exact hbB
    have hrow : (base_proofstate_tactic_mask numargs B).getD b [] =
        no_argument_tactics_mask numargs := by
      rw [base_proofstate_tactic_mask,
        List.getD_eq_getElem _ _ (show b < (List.replicate B (no_argument_tactics_mask numargs)).length
          by rw [List.length_replicate]; exact hbB), List.getElem_replicate]
    rw [combine_masks_entry _ _ _ _ hlen0 hbe (by rw [hrow, hnoarg_len]; exact ht) hte, hrow, hnoarg]
  · have hlen : b < (local_proofstate_tactic_mask numargs localCtxLens).length := by
      rw [local_proofstate_tactic_mask, List.length_map]; exact hbl
    have hrow : (local_proofstate_tactic_mask numargs localCtxLens).getD b [] =
        (if localCtxLens[b] = 0 then no_argument_tactics_mask numargs
         else all_tactics_mask numargs.length) := by
      rw [local_proofstate_tactic_mask, getD_map_of_lt _ _ _ _ hbl]
    have htin : t < ((local_proofstate_tactic_mask numargs localCtxLens).getD b []).length := by
      rw [hrow]
      by_cases h : localCtxLens[b] = 0
      · rw [if_pos h, hnoarg_len]; exact ht
      · rw [if_neg h, all_tactics_mask, List.length_replicate]; exact ht
    rw [combine_masks_entry _ _ _ _ hlen hbe htin hte, hrow, hctx]
    by_cases h : localCtxLens[b] = 0
    · rw [if_pos h, if_pos h, hnoarg]
    · rw [if_neg h, if_neg h, hall]
  · have hlen : b < (global_proofstate_tactic_mask numargs localCtxLens G).length := by
      rw [global_proofstate_tactic_mask, List.length_map]; exact hbl
    have hrow : (global_proofstate_tactic_mask numargs localCtxLens G).getD b [] =
        (if localCtxLens[b] = 0 ∧ G = 0 then no_argument_tactics_mask numargs
         else all_tactics_mask numargs.length) := by
      rw [global_proofstate_tactic_mask, getD_map_of_lt _ _ _ _ hbl]
    have htin : t < ((global_proofstate_tactic_mask numargs localCtxLens G).getD b []).length := by
      rw [hrow]
      by_cases h : localCtxLens[b] = 0 ∧ G = 0
      · rw [if_pos h, hnoarg_len]; exact ht
      · rw [if_neg h, all_tactics_mask, List.length_replicate]; exact ht
    rw [combine_masks_entry _ _ _ _ hlen hbe htin hte, hrow, hctx]
    by_cases h : localCtxLens[b] = 0 ∧ G = 0
    · rw [if_pos h, if_pos h, hnoarg]
    · rw [if_neg h, if_neg h, hall]

theorem inference_tactic_mask_conjunction_witness :
    ((2 : ℕ) < ([0, 1, 2] : List ℕ).length ∧ (0 : ℕ) < 1 ∧ (0 : ℕ) < ([3] : List ℕ).length ∧
      (0 : ℕ) < ([[true, false, true]] : List (List Bool)).length ∧
      (2 : ℕ) < (([[true, false, true]] : List (List Bool)).getD 0 []).length) ∧
    ((combine_masks (base_proofstate_tactic_mask [0, 1, 2] 1) [[true, false, true]]).getD 0 []).getD 2 false
      = ((([0, 1, 2] : List ℕ).getD 2 1 == 0) && (([[true, false, true]] : List (List Bool)).getD 0 []).getD 2 false) :=
  ⟨⟨by decide, by decide, by decide, by decide, by decide⟩,
   (inference_tactic_mask_conjunction [0, 1, 2] [[true, false, true]] [3] 0 1 0 2
      (by decide) (by decide) (by decide) (by decide) (by decide)).1⟩

/-- C8 counterexample: constructing a `QueryKeyMul` layer with the unknown multiplication
method `"bogus"` succeeds — `__init__` stores the selector without validation, and the
descriptive error is raised only when the layer is called (first forward/build pass).  This
refutes the claim that an unknown similarity/multiplication-method selector raises a
descriptive error at construction time. -/
theorem query_key_mul_unknown_method_constructs :
    QueryKeyMul.init "bogus" = Except.ok ⟨"bogus"⟩ ∧
    QueryKeyMul.call ⟨"bogus"⟩ [] [] =
      Except.error ("Unsupported multiplication method: " ++ "bogus") := by
  refine ⟨rfl, ?_⟩
  rw [QueryKeyMul.call, if_neg (by decide), if_neg (by decide), if_neg (by decide)]

/-- C8 (amended): an unknown task-kind string makes `get_prediction_task_constructor` raise a
descriptive error at construction time, before any batch is processed; an unknown
multiplication-method selector does NOT raise at layer construction (`QueryKeyMul.__init__`
stores it unchecked) — the descriptive error is raised by `QueryKeyMul.call`, i.e. on the
first forward/build pass of the layer. -/
theorem configuration_errors_surfacing (s m : String)
    (hs1 : s ≠ BASE_TACTIC_PREDICTION) (hs2 : s ≠ LOCAL_ARGUMENT_PREDICTION)
    (hs3 : s ≠ GLOBAL_ARGUMENT_PREDICTION)
    (hm1 : m ≠ "map_fn") (hm2 : m ≠ "broadcast_ragged") (hm3 : m ≠ "ragged_to_dense_to_ragged")
    (queries keys : List (List (List ℝ))) :
    get_prediction_task_constructor s = Except.error (s ++ " is not a valid prediction task type") ∧
    QueryKeyMul.init m = Except.ok ⟨m⟩ ∧
    QueryKeyMul.call ⟨m⟩ queries keys =
      Except.error ("Unsupported multiplication method: " ++ m) := by
  refine ⟨?_, rfl, ?_⟩
  · rw [get_prediction_task_constructor, if_neg hs1, if_neg hs2, if_neg hs3]
  · rw [QueryKeyMul.call, if_neg hm1, if_neg hm2, if_neg hm3]

theorem configuration_errors_surfacing_witness :
    (("foo" ≠ BASE_TACTIC_PREDICTION) ∧ ("bar" : String) ≠ "map_fn") ∧
    (get_prediction_task_constructor "foo" =
      Except.error ("foo" ++ " is not a valid prediction task type") ∧
     QueryKeyMul.init "bar" = Except.ok ⟨"bar"⟩ ∧
     QueryKeyMul.call ⟨"bar"⟩ [] [] =
      Except.error ("Unsupported multiplication method: " ++ "bar")) :=
  ⟨⟨by decide, by decide⟩,
   configuration_errors_surfacing "foo" "bar" (by decide) (by decide) (by decide)
     (by decide) (by decide) (by decide) [] []⟩

/-! ## Sentinel filtering: `arguments_filter` and the argument losses -/

theorem rowPositions_padTo (A : ℕ) (row : List ℤ) :
    rowPositions (padTo A (-1) row) = rowPositions row := by
  rw [rowPositions, rowPositions, padTo, List.length_append, List.length_replicate,
    List.range_add, List.filter_append]
  have h1 : List.filter
      (fun p => (row ++ List.replicate (A - row.length) (-1)).getD p (-1) != -1)
      (List.range row.length) =
      List.filter (fun p => row.getD p (-1) != -1) (List.range row.length) := by
    apply List.filter_congr
    intro p hp
    rw [List.getD_append _ _ _ _ (List.mem_range.mp hp)]
  have h2 : List.filter
      (fun p => (row ++ List.replicate (A - row.length) (-1)).getD p (-1) != -1)
      (List.map (fun x => row.length + x) (List.range (A - row.length))) = [] := by
    rw [List.filter_eq_nil_iff]
    intro a ha
    obtain ⟨x, hx, rfl⟩ := List.mem_map.mp ha
    have hxlt : x < A - row.length := List.mem_range.mp hx
    have : (row ++ List.replicate (A - row.length) (-1 : ℤ)).getD (row.length + x) (-1) = -1 := by
      rw [List.getD_eq_getElem _ _ (by
          rw [List.length_append, List.length_replicate]; omega),
        List.getElem_append_right (by omega)]
      simp
    rw [this]
    simp
  rw [h1, h2, List.append_nil]

theorem rowPositions_map_getD (row : List ℤ) :
    (rowPositions row).map (fun p => row.getD p (-1)) = row.filter (fun v => v != -1) := by
  induction row with
  | nil => rfl
  | cons x xs ih =>
    have hrest : List.filter (fun p => (x :: xs).getD p (-1) != -1)
        (List.map Nat.succ (List.range xs.length)) = List.map Nat.succ (rowPositions xs) := by
      rw [List.filter_map, rowPositions]
      rfl
    rw [rowPositions, List.length_cons, List.range_succ_eq_map, List.filter_cons, hrest]
    by_cases hx : ((x :: xs).getD 0 (-1) != -1) = true
    · rw [if_pos hx, List.map_cons, List.map_map]
      have hmm : ((fun p => (x :: xs).getD p (-1)) ∘ Nat.succ) = (fun p => xs.getD p (-1)) := rfl
      rw [hmm, ih, List.filter_cons, List.getD_cons_zero]
      rw [List.getD_cons_zero] at hx
      rw [if_pos hx]
    · rw [if_neg hx, List.map_map]
      have hmm : ((fun p => (x :: xs).getD p (-1)) ∘ Nat.succ) = (fun p => xs.getD p (-1)) := rfl
      rw [hmm, ih, List.filter_cons]
      rw [List.getD_cons_zero] at hx
      rw [if_neg hx]

theorem map_getD_range {α : Type*} (l : List α) (d : α) :
    (List.range l.length).map (fun b => l.getD b d) = l := by
  apply List.ext_getElem
  · rw [List.length_map, List.length_range]
  · intro n h1 h2
    rw [List.getElem_map, List.getElem_range, List.getD_eq_getElem _ _ h2]

theorem filter_flatMap_distrib {α β : Type*} (l : List α) (f : α → List β) (p : β → Bool) :
    (l.flatMap f).filter p = l.flatMap (fun x => (f x).filter p) := by
  induction l with
  | nil => rfl
  | cons x xs ih => rw [List.flatMap_cons, List.flatMap_cons, List.filter_append, ih]

theorem flatMap_range_ite {β : Type*} (n b : ℕ) (X : List β) (hb : b < n) :
    (List.range n).flatMap (fun i => if i = b then X else []) = X := by
  induction n with
  | zero => exact absurd hb (Nat.not_lt_zero b)
  | succ m ih =>
    rw [List.range_succ, List.flatMap_append]
    rcases Nat.lt_succ_iff_lt_or_eq.mp hb with h | h
    · rw [ih h]
      have hm : m ≠ b := by omega
      simp [hm]
    · subst h
      have hnil : (List.range b).flatMap (fun i => if i = b then X else []) = [] := by
        rw [List.flatMap_eq_nil_iff]
        intro i hi
        rw [if_neg (by have := List.mem_range.mp hi; omega)]
      simp [hnil]

theorem filter_fst_flatMap_blocks {β : Type*} (n b : ℕ) (g : ℕ → List β) (hb : b < n) :
    (((List.range n).flatMap (fun i => (g i).map (fun p => (i, p)))).filter
        (fun q => q.1 == b)) = (g b).map (fun p => (b, p)) := by
  rw [filter_flatMap_distrib]
  have hblock : ∀ i, ((g i).map (fun p => (i, p))).filter (fun q => q.1 == b) =
      (if i = b then (g b).map (fun p => (b, p)) else []) := by
    intro i
    by_cases h : i = b
    · subst h
      rw [if_pos rfl, List.filter_eq_self.mpr]
      intro a ha
      obtain ⟨p, _, rfl⟩ := List.mem_map.mp ha
      simp
    · rw [if_neg h, List.filter_eq_nil_iff.mpr]
      intro a ha
      obtain ⟨p, _, rfl⟩ := List.mem_map.mp ha
      simp [h]
  simp only [hblock]
  exact flatMap_range_ite n b _ hb

theorem fromValueRowids_blocks {γ : Type*} (n : ℕ) (g : ℕ → List ℕ) (f : ℕ × ℕ → γ) :
    fromValueRowids
      (((List.range n).flatMap (fun i => (g i).map (fun p => (i, p)))).map f)
      (((List.range n).flatMap (fun i => (g i).map (fun p => (i, p)))).map Prod.fst) n =
    (List.range n).map (fun b => (g b).map (fun p => f (b, p))) := by
  rw [fromValueRowids]
  apply List.map_congr_left
  intro b hb
  rw [List.zip_map', List.filter_map]
  have hcomp : ((fun (vr : γ × ℕ) => vr.2 == b) ∘ (fun q => (f q, q.1))) =
      (fun (q : ℕ × ℕ) => q.1 == b) := rfl
  rw [hcomp, filter_fst_flatMap_blocks n b g (List.mem_range.mp hb), List.map_map, List.map_map]
  rfl

theorem gatherND_fromValueRowids_blocks {γ : Type*} (yt : List (List ℤ)) (t : List (List γ))
    (d : γ) :
    fromValueRowids (gatherND t (wherePositions (to_dense_neg1 yt)) d)
      ((wherePositions (to_dense_neg1 yt)).map Prod.fst) yt.length =
    (List.range yt.length).map (fun b =>
      (rowPositions ((to_dense_neg1 yt).getD b [])).map (fun p => (t.getD b []).getD p d)) := by
  have hm : (to_dense_neg1 yt).length = yt.length := by rw [to_dense_neg1, List.length_map]
  have hps : wherePositions (to_dense_neg1 yt) =
      (List.range yt.length).flatMap (fun b =>
        (rowPositions ((to_dense_neg1 yt).getD b [])).map (fun p => (b, p))) := by
    rw [wherePositions, hm]
  have hg : gatherND t (wherePositions (to_dense_neg1 yt)) d =
      (wherePositions (to_dense_neg1 yt)).map (fun q => (t.getD q.1 []).getD q.2 d) := rfl
  rw [hg, hps, fromValueRowids_blocks yt.length _ (fun q => (t.getD q.1 []).getD q.2 d)]

theorem to_dense_neg1_row (yt : List (List ℤ)) (b : ℕ) (hb : b < yt.length) :
    (to_dense_neg1 yt).getD b [] = padTo (maxLen yt) (-1) (yt.getD b []) := by
  rw [to_dense_neg1, getD_map_of_lt _ _ _ _ hb, List.getD_eq_getElem yt [] hb]

theorem ASCC_arguments_filter_eq (yt : List (List ℤ)) (yp : List (List (List ℝ))) :
    ArgumentSparseCategoricalCrossentropy.arguments_filter yt yp =
      ((List.range yt.length).map (fun b =>
         (rowPositions (yt.getD b [])).map (fun p => (yt.getD b []).getD p (-1))),
       (List.range yt.length).map (fun b =>
         (rowPositions (yt.getD b [])).map (fun p => (yp.getD b []).getD p []))) := by
  rw [ArgumentSparseCategoricalCrossentropy.arguments_filter,
    gatherND_fromValueRowids_blocks yt (to_dense_neg1 yt) (-1),
    gatherND_fromValueRowids_blocks yt yp []]
  refine Prod.ext ?_ ?_
  · simp only []
    apply List.map_congr_left
    intro b hb
    have hblt := List.mem_range.mp hb
    rw [to_dense_neg1_row yt b hblt, rowPositions_padTo]
    apply List.map_congr_left
    intro p hp
    have hp' := hp
    rw [rowPositions] at hp'
    have hplt : p < (yt.getD b []).length := List.mem_range.mp (List.mem_filter.mp hp').1
    rw [padTo, List.getD_append _ _ _ _ hplt]
  · simp only []
    apply List.map_congr_left
    intro b hb
    have hblt := List.mem_range.mp hb
    rw [to_dense_neg1_row yt b hblt, rowPositions_padTo]

theorem ASCC_argLosses_eq (yt : List (List ℤ)) (yp : List (List (List ℝ))) :
    List.zipWith (List.zipWith (fun (l : ℤ) (row : List ℝ) => -(row.getD l.toNat 0)))
      (ArgumentSparseCategoricalCrossentropy.arguments_filter yt yp).1
      (ArgumentSparseCategoricalCrossentropy.arguments_filter yt yp).2 =
    perExampleArgLosses yt yp := by
  rw [ASCC_arguments_filter_eq]
  simp only []
  rw [List.zipWith_map, List.zipWith_same, perExampleArgLosses]
  apply List.map_congr_left
  intro b _
  rw [List.zipWith_map, List.zipWith_same]

/-- C3: over normalized logits, `ArgumentSparseCategoricalCrossentropy.call` with
`sum_loss_over_tactic = True` returns one scalar per batch example, the sum of the negated
normalized log-probabilities of that example's non-sentinel ground-truth arguments (an empty
sum, `0`, for an example without valid positions); with `sum_loss_over_tactic = False` it
returns the flat list of those per-argument values across the batch, with no entry for
examples that have zero valid positions.  In particular, on a batch of one example with
per-position losses `a`, `b` plus one example with no valid positions, the first policy
yields `[a + b, 0]` and the second yields `[a, b]`. -/
theorem argument_loss_aggregation_policies (yt : List (List ℤ)) (yp : List (List (List ℝ))) :
    ArgumentSparseCategoricalCrossentropy.call true yt yp =
      (perExampleArgLosses yt yp).map List.sum ∧
    ArgumentSparseCategoricalCrossentropy.call false yt yp =
      (perExampleArgLosses yt yp).flatten := by
  constructor
  · show (List.zipWith (List.zipWith (fun (l : ℤ) (row : List ℝ) => -(row.getD l.toNat 0)))
        (ArgumentSparseCategoricalCrossentropy.arguments_filter yt yp).1
        (ArgumentSparseCategoricalCrossentropy.arguments_filter yt yp).2).map List.sum =
      (perExampleArgLosses yt yp).map List.sum
    rw [ASCC_argLosses_eq]
  · show (List.zipWith (List.zipWith (fun (l : ℤ) (row : List ℝ) => -(row.getD l.toNat 0)))
        (ArgumentSparseCategoricalCrossentropy.arguments_filter yt yp).1
        (ArgumentSparseCategoricalCrossentropy.arguments_filter yt yp).2).flatten =
      (perExampleArgLosses yt yp).flatten
    rw [ASCC_argLosses_eq]

theorem arguments_filter_fst_eq (yt : List (List ℤ)) (yp : List (List (List ℝ))) :
    (arguments_filter yt yp).1 =
      (yt.map (fun row => row.filter (fun v => v != -1))).flatten := by
  have hm : (to_dense_neg1 yt).length = yt.length := by rw [to_dense_neg1, List.length_map]
  show (wherePositions (to_dense_neg1 yt)).map
      (fun q => ((to_dense_neg1 yt).getD q.1 []).getD q.2 (-1)) = _
  rw [wherePositions, hm, List.map_flatMap]
  have hinner : ∀ b ∈ List.range yt.length,
      ((rowPositions ((to_dense_neg1 yt).getD b [])).map (fun p => (b, p))).map
        (fun q => ((to_dense_neg1 yt).getD q.1 []).getD q.2 (-1)) =
      (yt.getD b []).filter (fun v => v != -1) := by
    intro b hb
    have hblt := List.mem_range.mp hb
    rw [List.map_map, to_dense_neg1_row yt b hblt, rowPositions_padTo, ← rowPositions_map_getD]
    apply List.map_congr_left
    intro p hp
    have hp' := hp
    rw [rowPositions] at hp'
    have hplt : p < (yt.getD b []).length := List.mem_range.mp (List.mem_filter.mp hp').1
    simp only [Function.comp_apply]
    rw [to_dense_neg1_row yt b hblt, padTo, List.getD_append _ _ _ _ hplt]
  rw [List.flatMap_def, List.map_congr_left hinner]
  have hfin : (List.range yt.length).map (fun b => (yt.getD b []).filter (fun v => v != -1)) =
      yt.map (fun row => row.filter (fun v => v != -1)) := by
    rw [show (fun b => (yt.getD b []).filter (fun v => v != -1)) =
        ((fun row : List ℤ => row.filter (fun v => v != -1)) ∘ (fun b => yt.getD b [])) from rfl,
      ← List.map_map, map_getD_range]
  rw [hfin]

theorem getD_nil_of_all_nil {γ : Type*} (rows : List (List γ)) (h : ∀ row ∈ rows, row = [])
    (k : ℕ) : rows.getD k [] = [] := by
  by_cases hk : k < rows.length
  · rw [List.getD_eq_getElem _ _ hk]
    exact h _ (List.getElem_mem hk)
  · rw [List.getD_eq_getElem?_getD, List.getElem?_eq_none (by omega)]
    rfl

theorem wherePositions_nil_of_all_sentinel (yt : List (List ℤ))
    (h : ∀ row ∈ yt, ∀ v ∈ row, v = -1) :
    wherePositions (to_dense_neg1 yt) = [] := by
  have hm : (to_dense_neg1 yt).length = yt.length := by rw [to_dense_neg1, List.length_map]
  rw [wherePositions, hm, List.flatMap_eq_nil_iff]
  intro b hb
  have hblt := List.mem_range.mp hb
  rw [to_dense_neg1_row yt b hblt, rowPositions_padTo]
  have hrp : rowPositions (yt.getD b []) = [] := by
    rw [rowPositions, List.filter_eq_nil_iff]
    intro p hp
    have hplt := List.mem_range.mp hp
    have : (yt.getD b []).getD p (-1) = -1 := by
      rw [List.getD_eq_getElem _ _ hplt]
      exact h _ (by rw [List.getD_eq_getElem yt [] hblt]; exact List.getElem_mem hblt) _
        (List.getElem_mem hplt)
    rw [this]
    simp
  rw [hrp]
  rfl

/-- C7: filtering the ground-truth labels drops exactly the positions whose label equals the
sentinel `-1`, preserving the row-major grouping (the flat filtered labels are the
concatenation of the per-row non-sentinel labels); and degenerate batches are valid inputs to
the local argument loss rather than errors: a batch in which every label is the sentinel
yields the zero-length loss vector, and a batch with an empty candidate context yields an
all-zero loss vector with one entry per non-sentinel label. -/
theorem sentinel_filter_and_degenerate_loss (yt : List (List ℤ)) (yp : List (List (List ℝ))) :
    (arguments_filter yt yp).1 =
      (yt.map (fun row => row.filter (fun v => v != -1))).flatten ∧
    ((∀ row ∈ yt, ∀ v ∈ row, v = -1) →
      LocalArgumentSparseCategoricalCrossentropy.call yt yp = []) ∧
    ((∀ rows ∈ yp, ∀ row ∈ rows, row = ([] : List ℝ)) →
      LocalArgumentSparseCategoricalCrossentropy.call yt yp =
        ((yt.map (fun row => row.filter (fun v => v != -1))).flatten).map
          (fun _ => (0 : ℝ))) := by
  refine ⟨arguments_filter_fst_eq yt yp, ?_, ?_⟩
  · intro h
    have hfilter : arguments_filter yt yp = ([], []) := by
      rw [arguments_filter, wherePositions_nil_of_all_sentinel yt h]
      rfl
    rw [LocalArgumentSparseCategoricalCrossentropy.call, hfilter]
    simp
  · intro h
    have hsnd : ∀ q ∈ wherePositions (to_dense_neg1 yt),
        ((yp.getD q.1 []).getD q.2 ([] : List ℝ)) = [] := by
      intro q _
      apply getD_nil_of_all_nil
      intro row hrow
      by_cases hq : q.1 < yp.length
      · rw [List.getD_eq_getElem _ _ hq] at hrow
        exact h _ (List.getElem_mem hq) _ hrow
      · rw [List.getD_eq_getElem?_getD, List.getElem?_eq_none (by omega)] at hrow
        cases hrow
    have hsum : (((arguments_filter yt yp).2).map List.length).sum = 0 := by
      apply List.sum_eq_zero
      intro x hx
      obtain ⟨row, hrow, rfl⟩ := List.mem_map.mp hx
      obtain ⟨q, hq, rfl⟩ := List.mem_map.mp hrow
      rw [hsnd q hq]
      rfl
    rw [LocalArgumentSparseCategoricalCrossentropy.call, if_pos hsum,
      arguments_filter_fst_eq yt yp]

theorem sentinel_filter_and_degenerate_loss_witness :
    ((∀ row ∈ ([[-1, -1], []] : List (List ℤ)), ∀ v ∈ row, v = -1) ∧
      (∀ rows ∈ ([[], [[]]] : List (List (List ℝ))), ∀ row ∈ rows, row = ([] : List ℝ))) ∧
    LocalArgumentSparseCategoricalCrossentropy.call [[-1, -1], []] [] = [] ∧
    LocalArgumentSparseCategoricalCrossentropy.call [[2, -1]] [[], [[]]] =
      ((([[2, -1]] : List (List ℤ)).map (fun row => row.filter (fun v => v != -1))).flatten).map
        (fun _ => (0 : ℝ)) :=
  ⟨⟨by decide, by decide⟩,
   (sentinel_filter_and_degenerate_loss [[-1, -1], []] []).2.1 (by decide),
   (sentinel_filter_and_degenerate_loss [[2, -1]] [[], [[]]]).2.2 (by decide)⟩

/-! ## Top-k selection lemmas -/

theorem topk_le_iff (a b : ℕ × WithBot ℝ) :
    ((if b.2 < a.2 then true else if a.2 < b.2 then false else decide (a.1 ≤ b.1)) = true) ↔
      (b.2 < a.2 ∨ (a.2 = b.2 ∧ a.1 ≤ b.1)) := by
  by_cases h1 : b.2 < a.2
  · simp [h1]
  · by_cases h2 : a.2 < b.2
    · rw [if_neg h1, if_pos h2]
      constructor
      · intro hcon
        exact absurd hcon Bool.false_ne_true
      · rintro (hc | ⟨he, _⟩)
        · exact absurd hc h1
        · exact absurd h2 (by rw [he]; exact lt_irrefl _)
    · have heq : a.2 = b.2 := le_antisymm (not_lt.mp h1) (not_lt.mp h2)
      rw [if_neg h1, if_neg h2, decide_eq_true_eq]
      constructor
      · intro h
        exact Or.inr ⟨heq, h⟩
      · rintro (hc | ⟨_, h⟩)
        · exact absurd hc h1
        · exact h

theorem topk_le_trans (a b c : ℕ × WithBot ℝ)
    (h1 : (if b.2 < a.2 then true else if a.2 < b.2 then false else decide (a.1 ≤ b.1)) = true)
    (h2 : (if c.2 < b.2 then true else if b.2 < c.2 then false else decide (b.1 ≤ c.1)) = true) :
    (if c.2 < a.2 then true else if a.2 < c.2 then false else decide (a.1 ≤ c.1)) = true := by
  rw [topk_le_iff] at h1 h2 ⊢
  rcases h1 with h1 | ⟨e1, n1⟩
  · rcases h2 with h2 | ⟨e2, n2⟩
    · exact Or.inl (lt_trans h2 h1)
    · exact Or.inl (e2 ▸ h1)
  · rcases h2 with h2 | ⟨e2, n2⟩
    · exact Or.inl (by rw [e1]; exact h2)
    · exact Or.inr ⟨e1.trans e2, le_trans n1 n2⟩

theorem topk_le_total (a b : ℕ × WithBot ℝ) :
    ((if b.2 < a.2 then true else if a.2 < b.2 then false else decide (a.1 ≤ b.1)) ||
     (if a.2 < b.2 then true else if b.2 < a.2 then false else decide (b.1 ≤ a.1))) = true := by
  rw [Bool.or_eq_true, topk_le_iff, topk_le_iff]
  rcases lt_trichotomy a.2 b.2 with h | h | h
  · exact Or.inr (Or.inl h)
  · rcases Nat.le_total a.1 b.1 with hn | hn
    · exact Or.inl (Or.inr ⟨h, hn⟩)
    · exact Or.inr (Or.inr ⟨h.symm, hn⟩)
  · exact Or.inl (Or.inl h)

theorem count_true_le_countP_ne_bot (l1 : List Bool) (l2 : List (WithBot ℝ))
    (hlen : l1.length = l2.length)
    (h : ∀ i, i < l1.length → l1.getD i false = true → l2.getD i ⊥ ≠ ⊥) :
    l1.count true ≤ l2.countP (fun x => decide (x ≠ ⊥)) := by
  induction l1 generalizing l2 with
  | nil => simp
  | cons b bs ih =>
    cases l2 with
    | nil => simp at hlen
    | cons x xs =>
      have hlen' : bs.length = xs.length := by simpa using hlen
      have hrest : ∀ i, i < bs.length → bs.getD i false = true → xs.getD i ⊥ ≠ ⊥ := by
        intro i hi hbi
        exact h (i + 1) (by rw [List.length_cons]; omega) hbi
      rw [List.count_cons, List.countP_cons]
      cases b with
      | true =>
        have hx : x ≠ ⊥ := h 0 (by rw [List.length_cons]; omega) rfl
        rw [if_pos (by rfl), if_pos (by rw [decide_eq_true_eq]; exact hx)]
        exact Nat.add_le_add (ih xs hlen' hrest) (le_refl 1)
      | false =>
        rw [if_neg (by simp)]
        exact le_trans (ih xs hlen' hrest) (by omega)

theorem log_softmax_entry_bot (logits : List ℝ) (mask : List Bool) (i : ℕ)
    (hlen : mask.length = logits.length) (hi : i < mask.length)
    (hmi : mask.getD i false = false) :
    (log_softmax (List.zipWith
      (fun (r : ℝ) (b : Bool) => (r : WithBot ℝ) + tfLog (if b then 1 else 0))
      logits mask)).getD i 0 = ⊥ := by
  have hmlen : (List.zipWith (fun (r : ℝ) (b : Bool) => (r : WithBot ℝ) + tfLog (if b then 1 else 0))
      logits mask).length = mask.length := by
    rw [List.length_zipWith, hlen, min_self]
  rw [log_softmax, getD_map_of_lt _ _ _ _ (by rw [hmlen]; exact hi),
    List.getElem_zipWith]
  rw [List.getD_eq_getElem mask false hi] at hmi
  rw [hmi]
  have h0 : tfLog (if false then 1 else 0) = ⊥ := by
    rw [if_neg Bool.false_ne_true, tfLog, if_pos (le_refl (0 : ℝ))]
  rw [h0, WithBot.add_bot, WithBot.map_bot]

theorem log_softmax_entry_ne_bot (logits : List ℝ) (mask : List Bool) (i : ℕ)
    (hlen : mask.length = logits.length) (hi : i < mask.length)
    (hmi : mask.getD i false = true) :
    (log_softmax (List.zipWith
      (fun (r : ℝ) (b : Bool) => (r : WithBot ℝ) + tfLog (if b then 1 else 0))
      logits mask)).getD i 0 ≠ ⊥ := by
  have hmlen : (List.zipWith (fun (r : ℝ) (b : Bool) => (r : WithBot ℝ) + tfLog (if b then 1 else 0))
      logits mask).length = mask.length := by
    rw [List.length_zipWith, hlen, min_self]
  rw [log_softmax, getD_map_of_lt _ _ _ _ (by rw [hmlen]; exact hi),
    List.getElem_zipWith]
  rw [List.getD_eq_getElem mask false hi] at hmi
  rw [hmi]
  have h1 : tfLog (if true then 1 else 0) = ((Real.log 1 : ℝ) : WithBot ℝ) := by
    rw [if_pos rfl, tfLog, if_neg (by norm_num)]
  rw [h1, ← WithBot.coe_add, WithBot.map_coe]
  exact WithBot.coe_ne_bot

/-- C6 (amended): provided at least `k = tactic_expand_bound` tactics are permitted by the
mask, `_top_k_tactics` never returns a tactic id whose entry in the permitted mask is false,
regardless of that tactic's raw logit (masked tactics enter the log-softmax at
`logit + log 0 = -inf`), and the `k` returned log-probabilities are non-increasing from the
first to the last returned hypothesis.  When fewer than `k` tactics are permitted the
exclusion fails (see the counterexample theorem), which is the only change to the claim. -/
theorem top_k_tactics_masked_never_selected (logits : List ℝ) (mask : List Bool) (k t : ℕ)
    (hlen : mask.length = logits.length) (hk : k ≤ mask.count true)
    (ht : mask.getD t false = false) :
    t ∉ (top_k_tactics logits mask k).1 ∧
    List.Pairwise (fun (a b : WithBot ℝ) => b ≤ a) (top_k_tactics logits mask k).2 := by
  set ls := log_softmax (List.zipWith (fun (r : ℝ) (b : Bool) =>
    (r : WithBot ℝ) + tfLog (if b then 1 else 0)) logits mask) with hlsdef
  set s := (ls.enum).mergeSort (fun a b =>
    if b.2 < a.2 then true else if a.2 < b.2 then false else decide (a.1 ≤ b.1)) with hsdef
  have hpair : List.Pairwise (fun a b =>
      (if b.2 < a.2 then true else if a.2 < b.2 then false else decide (a.1 ≤ b.1)) = true) s :=
    List.sorted_mergeSort topk_le_trans topk_le_total ls.enum
  have hperm : s.Perm ls.enum := List.mergeSort_perm ls.enum _
  have hlslen : ls.length = mask.length := by
    rw [hlsdef, log_softmax, List.length_map, List.length_zipWith, hlen, min_self]
  have hval : ∀ (a b : ℕ × WithBot ℝ),
      (if b.2 < a.2 then true else if a.2 < b.2 then false else decide (a.1 ≤ b.1)) = true →
      b.2 ≤ a.2 := by
    intro a b hab
    rcases (topk_le_iff a b).mp hab with h | ⟨h, _⟩
    · exact le_of_lt h
    · exact le_of_eq h.symm
  have hmono : List.Pairwise (fun (a b : WithBot ℝ) => b ≤ a) ((s.take k).map Prod.snd) := by
    rw [List.pairwise_map]
    exact (List.Pairwise.sublist (List.take_sublist k s) hpair).imp (fun hab => hval _ _ hab)
  have hnotin : t ∉ ((s.take k).map Prod.fst) := by
    intro htin
    obtain ⟨e, he_mem, he_fst⟩ := List.mem_map.mp htin
    obtain ⟨p, hp_lt, hp_eq⟩ := List.mem_iff_getElem.mp he_mem
    have hp_s : p < s.length :=
      lt_of_lt_of_le hp_lt (by rw [List.length_take]; exact min_le_right _ _)
    have hp_k : p < k :=
      lt_of_lt_of_le hp_lt (by rw [List.length_take]; exact min_le_left _ _)
    rw [List.getElem_take] at hp_eq
    have he_enum : e ∈ ls.enum := hperm.subset (by rw [← hp_eq]; exact List.getElem_mem hp_s)
    have hls_t : ls[e.1]? = some e.2 := List.mem_enum_iff_getElem?.mp he_enum
    rw [he_fst] at hls_t
    have ht_lt : t < ls.length := by
      by_contra hcon
      rw [List.getElem?_eq_none (by omega)] at hls_t
      cases hls_t
    have he2_bot : e.2 = ⊥ := by
      have hb := log_softmax_entry_bot logits mask t hlen (by rw [← hlslen]; exact ht_lt) ht
      rw [← hlsdef, List.getD_eq_getElem ls 0 ht_lt] at hb
      have hsome : some (ls[t]) = some e.2 := by
        rw [← List.getElem?_eq_getElem ht_lt]
        exact hls_t
      rw [← Option.some.inj hsome]
      exact hb
    have hdrop : ∀ x ∈ s.drop p, x.2 = ⊥ := by
      intro x hx
      obtain ⟨j, hj_lt, hj_eq⟩ := List.mem_iff_getElem.mp hx
      rw [List.getElem_drop] at hj_eq
      have hp_j : p + j < s.length := by
        rw [List.length_drop] at hj_lt
        omega
      rcases Nat.eq_zero_or_pos j with hj0 | hjpos
      · subst hj0
        simp only [Nat.add_zero] at hj_eq
        rw [hp_eq] at hj_eq
        rw [← hj_eq]
        exact he2_bot
      · have hlt : p < p + j := by omega
        have hle := (List.pairwise_iff_getElem.mp hpair) p (p + j) hp_s hp_j hlt
        rcases (topk_le_iff _ _).mp hle with hcase | ⟨hcase, _⟩
        · rw [hp_eq, he2_bot] at hcase
          exact absurd hcase not_lt_bot
        · rw [hp_eq, he2_bot] at hcase
          rw [← hj_eq]
          exact hcase.symm
    have hcount1 : mask.count true ≤ ls.countP (fun x => decide (x ≠ ⊥)) := by
      apply count_true_le_countP_ne_bot mask ls hlslen.symm
      intro i hi hmi
      have h1 := log_softmax_entry_ne_bot logits mask i hlen hi hmi
      rw [← hlsdef, List.getD_eq_getElem ls 0 (show i < ls.length by
        rw [hlslen]; exact hi)] at h1
      rw [List.getD_eq_getElem ls ⊥ (show i < ls.length by rw [hlslen]; exact hi)]
      exact h1
    have hcount2 : ls.countP (fun x => decide (x ≠ ⊥)) =
        s.countP (fun q => decide (q.2 ≠ ⊥)) := by
      have h1 : s.countP (fun q => decide (q.2 ≠ ⊥)) =
          (ls.enum).countP (fun q => decide (q.2 ≠ ⊥)) := hperm.countP_eq _
      rw [h1, show ((fun (q : ℕ × WithBot ℝ) => decide (q.2 ≠ ⊥))) =
        ((fun x => decide (x ≠ ⊥)) ∘ Prod.snd) from rfl, ← List.countP_map, List.enum_map_snd]
    have hsplit : s.countP (fun q => decide (q.2 ≠ ⊥)) ≤ p := by
      calc s.countP (fun q => decide (q.2 ≠ ⊥))
          = (s.take p ++ s.drop p).countP (fun q => decide (q.2 ≠ ⊥)) := by
            rw [List.take_append_drop]
        _ = (s.take p).countP (fun q => decide (q.2 ≠ ⊥)) +
            (s.drop p).countP (fun q => decide (q.2 ≠ ⊥)) := List.countP_append _ _ _
        _ ≤ p + 0 := by
            apply Nat.add_le_add
            · exact le_trans (List.countP_le_length _)
                (by rw [List.length_take]; exact min_le_left _ _)
            · rw [Nat.le_zero, List.countP_eq_zero]
              intro a ha
              simp [hdrop a ha]
        _ = p := Nat.add_zero p
    omega
  exact ⟨hnotin, hmono⟩

/-- C6 counterexample: with a single tactic whose mask entry is false and
`tactic_expand_bound = 1`, fewer tactics are permitted than requested, and `_top_k_tactics`
returns the masked-out tactic id `0` (with log-probability `-inf`) regardless of its raw
logit — refuting the claim that top-K selection never returns a masked tactic id. -/
theorem top_k_tactics_masked_counterexample :
    0 ∈ (top_k_tactics [(5 : ℝ)] [false] 1).1 := by
  have h1 : (List.zipWith (fun (r : ℝ) (b : Bool) =>
      (r : WithBot ℝ) + tfLog (if b then 1 else 0)) [(5 : ℝ)] [false]) = [⊥] := by
    show [((5 : ℝ) : WithBot ℝ) + tfLog (if false then 1 else 0)] = [⊥]
    rw [if_neg Bool.false_ne_true, tfLog, if_pos (le_refl (0 : ℝ)), WithBot.add_bot]
  have h2 : log_softmax [(⊥ : WithBot ℝ)] = [⊥] := by
    rw [log_softmax]
    show [(⊥ : WithBot ℝ).map _] = [⊥]
    rw [WithBot.map_bot]
  have hmk : (top_k_tactics [(5 : ℝ)] [false] 1).1 = [0] := by
    rw [top_k_tactics, h1, h2, top_k]
    rw [show ([(⊥ : WithBot ℝ)]).enum = [(0, ⊥)] from rfl, List.mergeSort_singleton]
    rfl
  rw [hmk]
  exact List.mem_singleton.mpr rfl

theorem top_k_tactics_masked_never_selected_witness :
    (([true, true, false, true, true] : List Bool).length = ([0, 100, 7, 3, 2] : List ℝ).length ∧
     3 ≤ ([true, true, false, true, true] : List Bool).count true ∧
     ([true, true, false, true, true] : List Bool).getD 2 false = false) ∧
    (2 ∉ (top_k_tactics [0, 100, 7, 3, 2] [true, true, false, true, true] 3).1 ∧
     List.Pairwise (fun (a b : WithBot ℝ) => b ≤ a)
       (top_k_tactics [0, 100, 7, 3, 2] [true, true, false, true, true] 3).2) :=
  ⟨⟨by decide, by decide, by decide⟩,
   top_k_tactics_masked_never_selected [0, 100, 7, 3, 2] [true, true, false, true, true] 3 2
     (by decide) (by decide) (by decide)⟩

/-! ## Ragged-structure lemmas for the QueryKeyMul methods -/

theorem valueRowidsAux_shift {α : Type*} (t : List (List α)) (b : ℕ) :
    valueRowidsAux t (b + 1) = (valueRowidsAux t b).map (fun i => i + 1) := by
  induction t generalizing b with
  | nil => rfl
  | cons r rs ih => simp [valueRowidsAux, ih (b + 1), List.map_append, List.map_replicate]

theorem valueRowidsAux_offset {α : Type*} (t : List (List α)) (b : ℕ) :
    valueRowidsAux t b = (valueRowidsAux t 0).map (fun i => i + b) := by
  induction b with
  | zero => simp
  | succ m ih =>
    rw [valueRowidsAux_shift t m, ih, List.map_map]
    apply List.map_congr_left
    intro i _
    simp [Nat.add_assoc]

theorem valueRowidsAux_append {α : Type*} (u v : List (List α)) (b : ℕ) :
    valueRowidsAux (u ++ v) b = valueRowidsAux u b ++ valueRowidsAux v (b + u.length) := by
  induction u generalizing b with
  | nil => simp [valueRowidsAux]
  | cons r rs ih =>
    show List.replicate r.length b ++ valueRowidsAux (rs ++ v) (b + 1) = _
    rw [ih (b + 1), ← List.append_assoc]
    show _ = (List.replicate r.length b ++ valueRowidsAux rs (b + 1)) ++
      valueRowidsAux v (b + (r :: rs).length)
    rw [List.append_assoc, List.append_assoc]
    congr 2
    rw [List.length_cons]
    congr 1
    omega

theorem valueRowids_cons {α : Type*} (r : List α) (rs : List (List α)) :
    valueRowids (r :: rs) =
      List.replicate r.length 0 ++ (valueRowids rs).map (fun i => i + 1) := by
  rw [valueRowids, valueRowids]
  show List.replicate r.length 0 ++ valueRowidsAux rs 1 = _
  rw [valueRowidsAux_shift rs 0]

theorem valueRowidsAux_length {α : Type*} (t : List (List α)) (b : ℕ) :
    (valueRowidsAux t b).length = t.flatten.length := by
  induction t generalizing b with
  | nil => rfl
  | cons r rs ih =>
    show (List.replicate r.length b ++ valueRowidsAux rs (b + 1)).length = _
    rw [List.length_append, List.length_replicate, ih (b + 1), List.flatten_cons,
      List.length_append]

theorem valueRowidsAux_mem_lt {α : Type*} (t : List (List α)) (b i : ℕ)
    (h : i ∈ valueRowidsAux t b) : b ≤ i ∧ i < b + t.length := by
  induction t generalizing b with
  | nil => cases h
  | cons r rs ih =>
    rcases List.mem_append.mp h with h | h
    · have hib := List.eq_of_mem_replicate h
      constructor
      · omega
      · rw [List.length_cons]
        omega
    · obtain ⟨h1, h2⟩ := ih (b + 1) h
      refine ⟨by omega, ?_⟩
      rw [List.length_cons]
      omega

theorem splitByLengths_append_exact {α : Type*} (ns ms : List ℕ) (u v : List α)
    (hu : u.length = ns.sum) :
    splitByLengths (ns ++ ms) (u ++ v) = splitByLengths ns u ++ splitByLengths ms v := by
  induction ns generalizing u with
  | nil =>
    rw [List.sum_nil] at hu
    rw [List.length_eq_zero.mp hu]
    rfl
  | cons n ns ih =>
    rw [List.sum_cons] at hu
    show ((u ++ v).take n) :: splitByLengths (ns ++ ms) ((u ++ v).drop n) = _
    have h1 : (u ++ v).take n = u.take n ++ ([] : List α) := by
      rw [List.append_nil, List.take_append_of_le_length (by omega)]
    have h2 : (u ++ v).drop n = u.drop n ++ v := List.drop_append_of_le_length (by omega)
    rw [List.append_nil] at h1
    rw [h1, h2, ih (u.drop n) (by rw [List.length_drop]; omega)]
    rfl

theorem splitByLengths_length {α : Type*} (ns : List ℕ) (vals : List α) :
    (splitByLengths ns vals).length = ns.length := by
  induction ns generalizing vals with
  | nil => rfl
  | cons n ns ih =>
    show (vals.take n :: splitByLengths ns (vals.drop n)).length = _
    rw [List.length_cons, List.length_cons, ih]

theorem zipWith_zipWith_left_self {α β γ δ : Type*} (f : γ → α → δ) (g : α → β → γ)
    (a : List α) (b : List β) :
    List.zipWith f (List.zipWith g a b) a = List.zipWith (fun x y => f (g x y) x) a b := by
  induction a generalizing b with
  | nil => rfl
  | cons x xs ih =>
    cases b with
    | nil => rfl
    | cons y ys => simp [ih]

theorem zipWith_replicate_right {α β : Type*} (f : α → β → γ) (l : List α) (c : β) :
    List.zipWith f l (List.replicate l.length c) = l.map (fun x => f x c) := by
  induction l with
  | nil => rfl
  | cons x xs ih =>
    show f x c :: List.zipWith f xs (List.replicate xs.length c) = _
    rw [ih]
    rfl

theorem getD_append_offset {α : Type*} (u v : List α) (d : α) (i : ℕ) :
    (u ++ v).getD (i + u.length) d = v.getD i d := by
  rw [List.getD_eq_getElem?_getD, List.getD_eq_getElem?_getD,
    List.getElem?_append_right (by omega)]
  have hidx : i + u.length - u.length = i := by omega
  rw [hidx]

theorem dot_comm (u v : List ℝ) : dot u v = dot v u := by
  rw [dot, dot, List.zipWith_comm_of_comm (fun a b => a * b) mul_comm]

theorem broadcast_head_block (Q K : List (List ℝ)) :
    splitByLengths (List.replicate Q.length K.length)
      (List.zipWith (fun kv qv => dot kv qv) (List.replicate Q.length K).flatten
        ((valueRowidsAux (List.replicate Q.length K) 0).map (fun i => Q.getD i []))) =
      einsum_ij_kj_ik Q K := by
  induction Q with
  | nil => rfl
  | cons q Q' ih =>
    have ha : valueRowidsAux (List.replicate (q :: Q').length K) 0 =
        List.replicate K.length 0 ++
          (valueRowidsAux (List.replicate Q'.length K) 0).map (fun i => i + 1) := by
      show List.replicate K.length 0 ++ valueRowidsAux (List.replicate Q'.length K) 1 = _
      rw [valueRowidsAux_shift]
    have hb : (valueRowidsAux (List.replicate (q :: Q').length K) 0).map
        (fun i => (q :: Q').getD i []) =
        List.replicate K.length q ++
          (valueRowidsAux (List.replicate Q'.length K) 0).map (fun i => Q'.getD i []) := by
      rw [ha, List.map_append, List.map_replicate, List.map_map]
      rfl
    have hflat : (List.replicate (q :: Q').length K).flatten =
        K ++ (List.replicate Q'.length K).flatten := rfl
    have hzip : List.zipWith (fun kv qv => dot kv qv)
        (List.replicate (q :: Q').length K).flatten
        ((valueRowidsAux (List.replicate (q :: Q').length K) 0).map
          (fun i => (q :: Q').getD i [])) =
        K.map (fun kv => dot kv q) ++
          List.zipWith (fun kv qv => dot kv qv) (List.replicate Q'.length K).flatten
            ((valueRowidsAux (List.replicate Q'.length K) 0).map (fun i => Q'.getD i [])) := by
      rw [hflat, hb, List.zipWith_append _ _ _ _ _ (by rw [List.length_replicate])]
      congr 1
      exact zipWith_replicate_right _ K q
    rw [hzip]
    show (K.map (fun kv => dot kv q) ++ _).take K.length ::
      splitByLengths (List.replicate Q'.length K.length)
        ((K.map (fun kv => dot kv q) ++ _).drop K.length) = _
    rw [List.take_left' (List.length_map _ _), List.drop_left' (List.length_map _ _), ih]
    show _ = K.map (fun kr => dot q kr) :: einsum_ij_kj_ik Q' K
    congr 1
    apply List.map_congr_left
    intro kv _
    exact dot_comm kv q

theorem mul_broadcast_ragged_cons (Q K : List (List ℝ)) (qs ks : List (List (List ℝ))) :
    QueryKeyMul.mul_broadcast_ragged (Q :: qs) (K :: ks) =
      einsum_ij_kj_ik Q K :: QueryKeyMul.mul_broadcast_ragged qs ks := by
  have h1 : (valueRowids (Q :: qs)).map (fun b => (K :: ks).getD b []) =
      List.replicate Q.length K ++ (valueRowids qs).map (fun b => ks.getD b []) := by
    rw [valueRowids_cons, List.map_append, List.map_replicate, List.map_map]
    rfl
  have h2 : valueRowids (List.replicate Q.length K ++
        (valueRowids qs).map (fun b => ks.getD b [])) =
      valueRowidsAux (List.replicate Q.length K) 0 ++
        (valueRowids ((valueRowids qs).map (fun b => ks.getD b []))).map
          (fun i => i + Q.length) := by
    rw [valueRowids, valueRowidsAux_append]
    congr 1
    rw [valueRowidsAux_offset ((valueRowids qs).map (fun b => ks.getD b []))
      (0 + (List.replicate Q.length K).length), List.length_replicate, Nat.zero_add]
    rfl
  have h3 : (valueRowids (List.replicate Q.length K ++
        (valueRowids qs).map (fun b => ks.getD b []))).map
          (fun i => (Q :: qs).flatten.getD i []) =
      (valueRowidsAux (List.replicate Q.length K) 0).map (fun i => Q.getD i []) ++
        (valueRowids ((valueRowids qs).map (fun b => ks.getD b []))).map
          (fun i => qs.flatten.getD i []) := by
    rw [h2, List.map_append, List.map_map]
    congr 1
    · apply List.map_congr_left
      intro i hi
      obtain ⟨-, hlt⟩ := valueRowidsAux_mem_lt _ 0 i hi
      rw [Nat.zero_add, List.length_replicate] at hlt
      rw [List.flatten_cons, List.getD_append _ _ _ _ hlt]
    · apply List.map_congr_left
      intro i _
      simp only [Function.comp_apply]
      rw [List.flatten_cons, getD_append_offset]
  have h5 : (List.replicate Q.length K).flatten.length =
      ((valueRowidsAux (List.replicate Q.length K) 0).map (fun i => Q.getD i [])).length := by
    rw [List.length_map, valueRowidsAux_length]
  have hu : (List.zipWith (fun kv qv => dot kv qv) (List.replicate Q.length K).flatten
      ((valueRowidsAux (List.replicate Q.length K) 0).map (fun i => Q.getD i []))).length =
      (List.replicate Q.length K.length).sum := by
    rw [List.length_zipWith, ← h5, min_self, List.length_flatten, List.map_replicate]
  show splitByLengths ((Q :: qs).map List.length)
      (splitByLengths
        (((valueRowids (Q :: qs)).map (fun b => (K :: ks).getD b [])).map List.length)
        (List.zipWith (fun kv qv => dot kv qv)
          ((valueRowids (Q :: qs)).map (fun b => (K :: ks).getD b [])).flatten
          ((valueRowids ((valueRowids (Q :: qs)).map (fun b => (K :: ks).getD b []))).map
            (fun i => (Q :: qs).flatten.getD i [])))) = _
  rw [h1, h3, List.flatten_append, List.map_append, List.map_replicate,
    List.zipWith_append _ _ _ _ _ h5, splitByLengths_append_exact _ _ _ _ hu,
    broadcast_head_block]
  have he : (einsum_ij_kj_ik Q K).length = Q.length := by
    rw [einsum_ij_kj_ik, List.length_map]
  show (einsum_ij_kj_ik Q K ++ _).take Q.length ::
      splitByLengths (qs.map List.length) ((einsum_ij_kj_ik Q K ++ _).drop Q.length) = _
  rw [List.take_left' he, List.drop_left' he]
  rfl

theorem mul_broadcast_eq_map_fn (queries keys : List (List (List ℝ)))
    (hb : queries.length = keys.length) :
    QueryKeyMul.mul_broadcast_ragged queries keys = QueryKeyMul.mul_map_fn queries keys := by
  induction queries generalizing keys with
  | nil =>
    cases keys with
    | nil => rfl
    | cons K ks => simp at hb
  | cons Q qs ih =>
    cases keys with
    | nil => simp at hb
    | cons K ks =>
      rw [mul_broadcast_ragged_cons, ih ks (by simpa using hb)]
      rfl

theorem mul_dense_part_eq (queries keys : List (List (List ℝ))) :
    List.zipWith (fun (ld : List (List ℝ)) (q : List (List ℝ)) => ld.take q.length)
      (List.zipWith einsum_ij_kj_ik (toDenseVec queries) (toDenseVec keys)) queries =
    List.zipWith (fun Q K => Q.map (fun q =>
      (padTo (maxLen keys) (List.replicate (denseLastDim keys) 0) K).map (fun kr => dot q kr)))
      queries keys := by
  rw [toDenseVec, toDenseVec, List.zipWith_map, zipWith_zipWith_left_self]
  congr 1
  funext Q K
  rw [einsum_ij_kj_ik, padTo, padTo, List.map_append, List.take_left' (List.length_map _ _)]

theorem mul_dense_reassemble (W : ℕ) (pv : List ℝ) (queries keys : List (List (List ℝ))) :
    splitByLengths ((List.zipWith (fun Q K => Q.map (fun q =>
        (padTo W pv K).map (fun kr => dot q kr))) queries keys).map List.length)
      (List.zipWith (fun (row : List ℝ) n => row.take n)
        ((List.zipWith (fun Q K => Q.map (fun q =>
          (padTo W pv K).map (fun kr => dot q kr))) queries keys).flatten)
        ((valueRowids queries).map (fun b => (keys.getD b []).length))) =
    QueryKeyMul.mul_map_fn queries keys := by
  induction queries generalizing keys with
  | nil => rfl
  | cons Q qs ih =>
    cases keys with
    | nil => rfl
    | cons K ks =>
      have hlens : (valueRowids (Q :: qs)).map (fun b => ((K :: ks).getD b []).length) =
          List.replicate Q.length K.length ++
            (valueRowids qs).map (fun b => (ks.getD b []).length) := by
        rw [valueRowids_cons, List.map_append, List.map_replicate, List.map_map]
        rfl
      have hhead : List.zipWith (fun (row : List ℝ) n => row.take n)
          (Q.map (fun q => (padTo W pv K).map (fun kr => dot q kr)))
          (List.replicate Q.length K.length) = einsum_ij_kj_ik Q K := by
        rw [show Q.length = (Q.map (fun q => (padTo W pv K).map (fun kr => dot q kr))).length from
          (List.length_map _ _).symm, zipWith_replicate_right, List.map_map]
        rw [einsum_ij_kj_ik]
        apply List.map_congr_left
        intro q _
        simp only [Function.comp_apply]
        rw [padTo, List.map_append, List.take_left' (List.length_map _ _)]
      show splitByLengths ((Q.map (fun q => (padTo W pv K).map (fun kr => dot q kr)) ::
          List.zipWith (fun Q K => Q.map (fun q =>
            (padTo W pv K).map (fun kr => dot q kr))) qs ks).map List.length)
        (List.zipWith (fun (row : List ℝ) n => row.take n)
          ((Q.map (fun q => (padTo W pv K).map (fun kr => dot q kr)) ::
            List.zipWith (fun Q K => Q.map (fun q =>
              (padTo W pv K).map (fun kr => dot q kr))) qs ks).flatten)
          ((valueRowids (Q :: qs)).map (fun b => ((K :: ks).getD b []).length))) = _
      rw [hlens, List.flatten_cons,
        List.zipWith_append _ _ _ _ _ (by rw [List.length_map, List.length_replicate]), hhead]
      show (einsum_ij_kj_ik Q K ++ _).take
          (Q.map (fun q => (padTo W pv K).map (fun kr => dot q kr))).length ::
        splitByLengths ((List.zipWith (fun Q K => Q.map (fun q =>
            (padTo W pv K).map (fun kr => dot q kr))) qs ks).map List.length)
          ((einsum_ij_kj_ik Q K ++ _).drop
            (Q.map (fun q => (padTo W pv K).map (fun kr => dot q kr))).length) = _
      have he : (einsum_ij_kj_ik Q K).length =
          (Q.map (fun q => (padTo W pv K).map (fun kr => dot q kr))).length := by
        rw [einsum_ij_kj_ik, List.length_map, List.length_map]
      rw [List.take_left' he, List.drop_left' he, ih ks]
      rfl

theorem mul_dense_eq_map_fn (queries keys : List (List (List ℝ))) :
    QueryKeyMul.mul_ragged_to_dense_to_ragged queries keys =
      QueryKeyMul.mul_map_fn queries keys := by
  show splitByLengths
      ((List.zipWith (fun (ld : List (List ℝ)) (q : List (List ℝ)) => ld.take q.length)
        (List.zipWith einsum_ij_kj_ik (toDenseVec queries) (toDenseVec keys)) queries).map
          List.length)
      (List.zipWith (fun (row : List ℝ) n => row.take n)
        ((List.zipWith (fun (ld : List (List ℝ)) (q : List (List ℝ)) => ld.take q.length)
          (List.zipWith einsum_ij_kj_ik (toDenseVec queries) (toDenseVec keys)) queries).flatten)
        ((valueRowids queries).map (fun b => (keys.getD b []).length))) = _
  rw [mul_dense_part_eq]
  exact mul_dense_reassemble (maxLen keys) (List.replicate (denseLastDim keys) 0) queries keys

/-- C9: for every pair of ragged query/key batches of equal batch size, the three
multiplication methods of `QueryKeyMul` — `"map_fn"`, `"broadcast_ragged"` and
`"ragged_to_dense_to_ragged"` — produce the same ragged logit tensor, whose entry at
(example `b`, argument position `a`, candidate `c`) is the dot product of query vector
`(b, a)` with key vector `(b, c)`. -/
theorem query_key_mul_methods_agree (queries keys : List (List (List ℝ)))
    (hb : queries.length = keys.length) (b a c : ℕ)
    (hbq : b < queries.length) (ha : a < (queries.getD b []).length)
    (hc : c < (keys.getD b []).length) :
    QueryKeyMul.mul_broadcast_ragged queries keys = QueryKeyMul.mul_map_fn queries keys ∧
    QueryKeyMul.mul_ragged_to_dense_to_ragged queries keys =
      QueryKeyMul.mul_map_fn queries keys ∧
    (((QueryKeyMul.mul_map_fn queries keys).getD b []).getD a []).getD c 0 =
      dot ((queries.getD b []).getD a []) ((keys.getD b []).getD c []) := by
  refine ⟨mul_broadcast_eq_map_fn queries keys hb, mul_dense_eq_map_fn queries keys, ?_⟩
  have hbk : b < keys.length := hb ▸ hbq
  rw [List.getD_eq_getElem queries [] hbq] at ha
  rw [List.getD_eq_getElem keys [] hbk] at hc
  rw [QueryKeyMul.mul_map_fn, getD_zipWith_of_lt _ _ _ _ _ hbq hbk, einsum_ij_kj_ik,
    getD_map_of_lt _ _ _ _ ha, getD_map_of_lt _ _ _ _ hc,
    List.getD_eq_getElem queries [] hbq, List.getD_eq_getElem keys [] hbk,
    List.getD_eq_getElem _ _ ha, List.getD_eq_getElem _ _ hc]

theorem query_key_mul_methods_agree_witness :
    (([[[(1 : ℝ), 2]]] : List (List (List ℝ))).length =
       ([[[(3 : ℝ), 4]]] : List (List (List ℝ))).length ∧
     0 < ([[[(1 : ℝ), 2]]] : List (List (List ℝ))).length ∧
     0 < (([[[(1 : ℝ), 2]]] : List (List (List ℝ))).getD 0 []).length ∧
     0 < (([[[(3 : ℝ), 4]]] : List (List (List ℝ))).getD 0 []).length) ∧
    QueryKeyMul.mul_broadcast_ragged [[[(1 : ℝ), 2]]] [[[(3 : ℝ), 4]]] =
      QueryKeyMul.mul_map_fn [[[(1 : ℝ), 2]]] [[[(3 : ℝ), 4]]] :=
  ⟨⟨rfl, by decide, by decide, by decide⟩,
   (query_key_mul_methods_agree [[[(1 : ℝ), 2]]] [[[(3 : ℝ), 4]]] rfl 0 0 0
      (by decide) (by decide) (by decide)).1⟩

/-! ## Strict-accuracy pipeline lemmas -/

theorem le_maxLen {α : Type*} {t : List (List α)} {r : List α} (h : r ∈ t) :
    r.length ≤ maxLen t := by
  induction t with
  | nil => cases h
  | cons x xs ih =>
    rcases List.mem_cons.mp h with h | h
    · subst h
      exact le_max_left _ _
    · exact le_trans (ih h) (le_max_right _ _)

theorem eq_nil_of_maxLen_eq_zero {α : Type*} {t : List (List α)} {r : List α}
    (h0 : maxLen t = 0) (h : r ∈ t) : r = [] := by
  have := le_maxLen h
  rw [h0, Nat.le_zero, List.length_eq_zero] at this
  exact this

theorem reduceMax_replicate_bot (k : ℕ) : reduceMax (List.replicate k ⊥) = ⊥ := by
  induction k with
  | zero => rfl
  | succ m ih =>
    show max ⊥ (reduceMax (List.replicate m ⊥)) = ⊥
    rw [ih, max_self]

theorem reduceMax_append_replicate_bot (l : List (WithBot ℝ)) (k : ℕ) :
    reduceMax (l ++ List.replicate k ⊥) = reduceMax l := by
  induction l with
  | nil => rw [List.nil_append]; exact reduceMax_replicate_bot k
  | cons x xs ih =>
    show max x (reduceMax (xs ++ List.replicate k ⊥)) = max x (reduceMax xs)
    rw [ih]

theorem argmaxFrom_replicate_bot (k : ℕ) : ∀ (i bi : ℕ) (bv : WithBot ℝ),
    argmaxFrom (List.replicate k ⊥) i bi bv = bi := by
  induction k with
  | zero => intro i bi bv; rfl
  | succ m ihk =>
    intro i bi bv
    show (if bv < ⊥ then argmaxFrom (List.replicate m ⊥) (i + 1) i ⊥
      else argmaxFrom (List.replicate m ⊥) (i + 1) bi bv) = bi
    rw [if_neg not_lt_bot]
    exact ihk (i + 1) bi bv

theorem argmaxFrom_append_replicate_bot {i bi : ℕ} (xs : List (WithBot ℝ)) (k : ℕ)
    (bv : WithBot ℝ) :
    argmaxFrom (xs ++ List.replicate k ⊥) i bi bv = argmaxFrom xs i bi bv := by
  induction xs generalizing i bi bv with
  | nil =>
    rw [List.nil_append]
    show argmaxFrom (List.replicate k ⊥) i bi bv = bi
    exact argmaxFrom_replicate_bot k i bi bv
  | cons x t ih =>
    show (if bv < x then argmaxFrom (t ++ List.replicate k ⊥) (i + 1) i x
      else argmaxFrom (t ++ List.replicate k ⊥) (i + 1) bi bv) =
      (if bv < x then argmaxFrom t (i + 1) i x else argmaxFrom t (i + 1) bi bv)
    by_cases h : bv < x
    · rw [if_pos h, if_pos h, ih]
    · rw [if_neg h, if_neg h, ih]

theorem argmaxL_append_replicate_bot (l : List (WithBot ℝ)) (k : ℕ) :
    argmaxL (l ++ List.replicate k ⊥) = argmaxL l := by
  cases l with
  | nil =>
    rw [List.nil_append]
    cases k with
    | zero => rfl
    | succ m =>
      show argmaxFrom (List.replicate m ⊥) 1 0 ⊥ = 0
      exact argmaxFrom_replicate_bot m 1 0 ⊥
  | cons x xs =>
    show argmaxFrom (xs ++ List.replicate k ⊥) 1 0 x = argmaxFrom xs 1 0 x
    exact argmaxFrom_append_replicate_bot xs k x

theorem argmaxL_dummy : argmaxL ([⊥] : List (WithBot ℝ)) = argmaxL ([] : List (WithBot ℝ)) := rfl

theorem reduceMax_dummy : reduceMax ([⊥] : List (WithBot ℝ)) = reduceMax [] := by
  show max ⊥ (reduceMax []) = reduceMax []
  exact max_eq_right bot_le

theorem getD_zipWith_getD {α β γ : Type*} (f : α → β → γ) (u : List α) (v : List β)
    (b : ℕ) (d : γ) (du : α) (dv : β) (h1 : b < u.length) (h2 : b < v.length) :
    (List.zipWith f u v).getD b d = f (u.getD b du) (v.getD b dv) := by
  rw [getD_zipWith_of_lt f u v b d h1 h2, List.getD_eq_getElem u du h1,
    List.getD_eq_getElem v dv h2]

theorem getD_map_getD {α β : Type*} (f : α → β) (l : List α) (b : ℕ) (d : β) (dl : α)
    (h : b < l.length) : (l.map f).getD b d = f (l.getD b dl) := by
  rw [getD_map_of_lt f l b d h, List.getD_eq_getElem l dl h]

theorem getD_zip_getD {α β : Type*} (u : List α) (v : List β) (i : ℕ) (du : α) (dv : β)
    (h1 : i < u.length) (h2 : i < v.length) :
    (u.zip v).getD i (du, dv) = (u.getD i du, v.getD i dv) := by
  rw [List.getD_eq_getElem _ _ (by rw [List.length_zip]; exact lt_min h1 h2),
    List.getElem_zip, List.getD_eq_getElem u du h1, List.getD_eq_getElem v dv h2]

theorem ragged_logits_toDense2_length (yt : List (List ℤ))
    (t : List (List (List (WithBot ℝ)))) (hlen : yt.length = t.length) :
    (ragged_logits yt (toDense2 ⊥ t)).length = yt.length := by
  rw [ragged_logits]
  by_cases h : denseLastDim (toDense2 ⊥ t) = 0
  · rw [if_pos h, List.length_map]
  · rw [if_neg h, List.length_zipWith, toDense2, List.length_map, ← hlen, min_self]

theorem denseLastDim_toDense2 {α : Type*} (v : α) (t : List (List (List α)))
    (hA : 0 < maxLen t) : denseLastDim (toDense2 v t) = maxLen t.flatten := by
  cases t with
  | nil => exact absurd hA (by rw [maxLen]; simp)
  | cons t0 t' =>
    rw [toDense2, List.map_cons, denseLastDim, List.headD_cons]
    cases t0 with
    | nil =>
      rw [List.map_nil, padTo, List.nil_append, List.length_nil, Nat.sub_zero]
      obtain ⟨m, hm⟩ := Nat.exists_eq_succ_of_ne_zero (Nat.pos_iff_ne_zero.mp hA)
      rw [hm, List.replicate_succ, List.headD_cons, List.length_replicate]
    | cons r0 t0' =>
      rw [List.map_cons, padTo, List.cons_append, List.headD_cons, padTo,
        List.length_append, List.length_replicate]
      have hr0 : r0.length ≤ maxLen ((r0 :: t0') :: t').flatten := by
        apply le_maxLen
        rw [List.flatten_cons]
        exact List.mem_append_left _ (List.mem_cons_self r0 t0')
      omega

theorem pipeline_row (yt : List (List ℤ)) (t : List (List (List (WithBot ℝ))))
    (b a : ℕ) (hlen : yt.length = t.length) (hb : b < yt.length)
    (hrow : (yt.getD b []).length ≤ (t.getD b []).length)
    (ha : a < (yt.getD b []).length) :
    (∃ k, ((ragged_logits yt (toDense2 ⊥ t)).getD b []).getD a []
        = (t.getD b []).getD a [] ++ List.replicate k ⊥) ∨
      ((t.getD b []).getD a [] = [] ∧
        ((ragged_logits yt (toDense2 ⊥ t)).getD b []).getD a [] = [⊥]) := by
  have hbt : b < t.length := by rw [← hlen]; exact hb
  have htb_mem : t.getD b [] ∈ t := by
    rw [List.getD_eq_getElem t [] hbt]
    exact List.getElem_mem hbt
  have ha' : a < (t.getD b []).length := lt_of_lt_of_le ha hrow
  have hrow_mem : (t.getD b []).getD a [] ∈ t.flatten := by
    rw [List.mem_flatten]
    refine ⟨t.getD b [], htb_mem, ?_⟩
    rw [List.getD_eq_getElem _ [] ha']
    exact List.getElem_mem ha'
  have hC_le : ((t.getD b []).getD a []).length ≤ maxLen t.flatten := le_maxLen hrow_mem
  have hA_le : (t.getD b []).length ≤ maxLen t := le_maxLen htb_mem
  have hApos : 0 < maxLen t := lt_of_lt_of_le (Nat.zero_lt_of_lt ha') hA_le
  have hdl : denseLastDim (toDense2 (⊥ : WithBot ℝ) t) = maxLen t.flatten :=
    denseLastDim_toDense2 ⊥ t hApos
  by_cases hC : maxLen t.flatten = 0
  · right
    refine ⟨eq_nil_of_maxLen_eq_zero hC hrow_mem, ?_⟩
    rw [ragged_logits, if_pos (by rw [hdl, hC]), getD_map_getD _ _ _ _ [] hb,
      getD_map_getD _ _ _ _ 0 ha]
  · left
    refine ⟨maxLen t.flatten - ((t.getD b []).getD a []).length, ?_⟩
    have hbd : b < (toDense2 (⊥ : WithBot ℝ) t).length := by
      rw [toDense2, List.length_map]; exact hbt
    rw [ragged_logits, if_neg (by rw [hdl]; exact hC), getD_zipWith_getD _ _ _ _ [] [] [] hb hbd]
    have hdb : (toDense2 (⊥ : WithBot ℝ) t).getD b [] =
        padTo (maxLen t) (List.replicate (maxLen t.flatten) ⊥)
          ((t.getD b []).map (padTo (maxLen t.flatten) ⊥)) := by
      rw [toDense2, getD_map_getD _ _ _ _ [] hbt]
    rw [hdb]
    have htake : a < ((padTo (maxLen t) (List.replicate (maxLen t.flatten) ⊥)
        ((t.getD b []).map (padTo (maxLen t.flatten) ⊥))).take (yt.getD b []).length).length := by
      rw [List.length_take, padTo, List.length_append, List.length_map, List.length_replicate]
      omega
    rw [List.getD_eq_getElem _ [] htake, List.getElem_take]
    have hmap : a < ((t.getD b []).map (padTo (maxLen t.flatten) ⊥)).length := by
      rw [List.length_map]; exact ha'
    have hfin : (List.map (padTo (maxLen t.flatten) ⊥) (t.getD b []))[a] =
        (t.getD b []).getD a [] ++
          List.replicate (maxLen t.flatten - ((t.getD b []).getD a []).length) ⊥ := by
      rw [List.getElem_map, List.getD_eq_getElem (t.getD b []) [] ha']
      rfl
    exact (List.getElem_append_left hmap).trans hfin

theorem pipeline_row_length (yt : List (List ℤ)) (t : List (List (List (WithBot ℝ))))
    (b : ℕ) (hlen : yt.length = t.length) (hb : b < yt.length)
    (hrow : (yt.getD b []).length ≤ (t.getD b []).length) :
    ((ragged_logits yt (toDense2 ⊥ t)).getD b []).length = (yt.getD b []).length := by
  have hbt : b < t.length := by rw [← hlen]; exact hb
  by_cases h : denseLastDim (toDense2 (⊥ : WithBot ℝ) t) = 0
  · rw [ragged_logits, if_pos h, getD_map_getD _ _ _ _ [] hb, List.length_map]
  · have hbd : b < (toDense2 (⊥ : WithBot ℝ) t).length := by
      rw [toDense2, List.length_map]; exact hbt
    rw [ragged_logits, if_neg h, getD_zipWith_getD _ _ _ _ [] [] [] hb hbd, List.length_take]
    apply min_eq_left
    rw [toDense2, getD_map_getD _ _ _ _ [] hbt, padTo, List.length_append, List.length_map,
      List.length_replicate]
    have := le_maxLen (show t.getD b [] ∈ t by
      rw [List.getD_eq_getElem t [] hbt]; exact List.getElem_mem hbt)
    omega

theorem pipeline_reduceMax (yt : List (List ℤ)) (t : List (List (List (WithBot ℝ))))
    (b a : ℕ) (hlen : yt.length = t.length) (hb : b < yt.length)
    (hrow : (yt.getD b []).length ≤ (t.getD b []).length)
    (ha : a < (yt.getD b []).length) :
    reduceMax (((ragged_logits yt (toDense2 ⊥ t)).getD b []).getD a [])
      = reduceMax ((t.getD b []).getD a []) := by
  rcases pipeline_row yt t b a hlen hb hrow ha with ⟨k, hk⟩ | ⟨hnil, hrow2⟩
  · rw [hk, reduceMax_append_replicate_bot]
  · rw [hrow2, hnil, reduceMax_dummy]

theorem pipeline_argmax (yt : List (List ℤ)) (t : List (List (List (WithBot ℝ))))
    (b a : ℕ) (hlen : yt.length = t.length) (hb : b < yt.length)
    (hrow : (yt.getD b []).length ≤ (t.getD b []).length)
    (ha : a < (yt.getD b []).length) :
    argmaxL (((ragged_logits yt (toDense2 ⊥ t)).getD b []).getD a [])
      = argmaxL ((t.getD b []).getD a []) := by
  rcases pipeline_row yt t b a hlen hb hrow ha with ⟨k, hk⟩ | ⟨hnil, hrow2⟩
  · rw [hk, argmaxL_append_replicate_bot]
  · rw [hrow2, hnil, argmaxL_dummy]

theorem all_beq_iff {α : Type*} [BEq α] [LawfulBEq α] (u v : List α) (du dv : α)
    (h : u.length = v.length) :
    ((List.zipWith (fun x y : α => x == y) u v).all id = true ↔
      ∀ i, i < u.length → u.getD i du = v.getD i dv) := by
  induction u generalizing v with
  | nil =>
    constructor
    · intro _ i hi
      exact absurd hi (by simp)
    · intro _
      rfl
  | cons x xs ih =>
    cases v with
    | nil => exact absurd h (by simp)
    | cons y ys =>
      have hlen' : xs.length = ys.length := by simpa using h
      rw [List.zipWith_cons_cons, List.all_cons, Bool.and_eq_true, ih ys hlen']
      constructor
      · rintro ⟨hxy, hrest⟩ i hi
        cases i with
        | zero =>
          rw [List.getD_cons_zero, List.getD_cons_zero]
          exact eq_of_beq (by simpa using hxy)
        | succ j =>
          rw [List.getD_cons_succ, List.getD_cons_succ]
          exact hrest j (by simpa using hi)
      · intro hall
        constructor
        · have h0 := hall 0 (by simp)
          rw [List.getD_cons_zero, List.getD_cons_zero] at h0
          simpa using beq_of_eq h0
        · intro j hj
          have hs := hall (j + 1) (by simpa using Nat.succ_lt_succ hj)
          rw [List.getD_cons_succ, List.getD_cons_succ] at hs
          exact hs

theorem strict_scores_entry_product
    (tacticTrue : List ℕ) (tacticLogits : List (List ℝ))
    (localTrue globalTrue : List (List ℤ))
    (localLogits globalLogits : List (List (List (WithBot ℝ)))) (b : ℕ)
    (hT : tacticTrue.length = localTrue.length)
    (hTL : tacticLogits.length = localTrue.length)
    (hG : globalTrue.length = localTrue.length)
    (hLL : localLogits.length = localTrue.length)
    (hGL : globalLogits.length = localTrue.length)
    (hb : b < localTrue.length) :
    (GlobalArgumentModel.compute_strict_scores tacticTrue tacticLogits localTrue globalTrue
        localLogits globalLogits).getD b 0 =
      sparse_categorical_accuracy (tacticTrue.getD b 0) (tacticLogits.getD b []) *
      (if ((List.zipWith (fun x y : Bool => x == y)
              (List.zipWith (fun l g : ℤ => decide (g ≤ l)) (localTrue.getD b [])
                (globalTrue.getD b []))
              (List.zipWith (fun lb gb : WithBot ℝ => decide (gb ≤ lb))
                (((ragged_logits localTrue (toDense2 ⊥ localLogits)).getD b []).map reduceMax)
                (((ragged_logits globalTrue (toDense2 ⊥ globalLogits)).getD b []).map
                  reduceMax))).all id
            &&
          (List.zipWith (fun x y : ℤ => x == y)
              (List.zipWith (fun l g : ℤ => if g ≤ l then l else g) (localTrue.getD b [])
                (globalTrue.getD b []))
              (List.zipWith
                (fun p q : WithBot ℝ × ℤ => if q.1 ≤ p.1 then p.2 else q.2)
                (List.zip
                  (((ragged_logits localTrue (toDense2 ⊥ localLogits)).getD b []).map reduceMax)
                  (((ragged_logits localTrue (toDense2 ⊥ localLogits)).getD b []).map
                    (fun r => (argmaxL r : ℤ))))
                (List.zip
                  (((ragged_logits globalTrue (toDense2 ⊥ globalLogits)).getD b []).map
                    reduceMax)
                  (((ragged_logits globalTrue (toDense2 ⊥ globalLogits)).getD b []).map
                    (fun r => (argmaxL r : ℤ)))))).all id)
        then (1 : ℝ) else 0) := by
  have hbT : b < tacticTrue.length := by rw [hT]; exact hb
  have hbTL : b < tacticLogits.length := by rw [hTL]; exact hb
  have hbG : b < globalTrue.length := by rw [hG]; exact hb
  have hGG : globalTrue.length = globalLogits.length := by rw [hG, hGL]
  have hlr : (ragged_logits localTrue (toDense2 ⊥ localLogits)).length = localTrue.length :=
    ragged_logits_toDense2_length _ _ hLL.symm
  have hgr : (ragged_logits globalTrue (toDense2 ⊥ globalLogits)).length = globalTrue.length :=
    ragged_logits_toDense2_length _ _ hGG
  have hbLR : b < (ragged_logits localTrue (toDense2 ⊥ localLogits)).length := by
    rw [hlr]; exact hb
  have hbGR : b < (ragged_logits globalTrue (toDense2 ⊥ globalLogits)).length := by
    rw [hgr]; exact hbG
  simp only [GlobalArgumentModel.compute_strict_scores]
  rw [getD_zipWith_getD _ _ _ b (0 : ℝ) (0 : ℝ) (0 : ℝ)
    (by simp only [List.length_zipWith, List.length_map, hlr, hgr]; omega)
    (by simp only [List.length_zipWith, List.length_map, hlr, hgr]; omega)]
  rw [getD_zipWith_getD _ _ _ b (0 : ℝ) (0 : ℕ) ([] : List ℝ) hbT hbTL]
  rw [getD_zipWith_getD _ _ _ b (0 : ℝ) false false
    (by simp only [List.length_zipWith, List.length_map, hlr, hgr]; omega)
    (by simp only [List.length_zipWith, List.length_map, hlr, hgr]; omega)]
  rw [getD_zipWith_getD _ _ _ b false ([] : List Bool) ([] : List Bool)
    (by simp only [List.length_zipWith, List.length_map, hlr, hgr]; omega)
    (by simp only [List.length_zipWith, List.length_map, hlr, hgr]; omega)]
  rw [getD_zipWith_getD _ _ _ b ([] : List Bool) ([] : List ℤ) ([] : List ℤ) hb hbG]
  rw [getD_zipWith_getD _ _ _ b ([] : List Bool) ([] : List (WithBot ℝ)) ([] : List (WithBot ℝ))
    (by simp only [List.length_map, hlr]; omega)
    (by simp only [List.length_map, hgr]; omega)]
  rw [getD_zipWith_getD _ _ _ b false ([] : List ℤ) ([] : List ℤ)
    (by simp only [List.length_zipWith, List.length_map, hlr, hgr]; omega)
    (by simp only [List.length_zipWith, List.length_map, hlr, hgr]; omega)]
  rw [getD_zipWith_getD _ _ _ b ([] : List ℤ) ([] : List ℤ) ([] : List ℤ) hb hbG]
  rw [getD_zipWith_getD _ _ _ b ([] : List ℤ)
    ([] : List (WithBot ℝ × ℤ)) ([] : List (WithBot ℝ × ℤ))
    (by simp only [List.length_zipWith, List.length_map, hlr, hgr]; omega)
    (by simp only [List.length_zipWith, List.length_map, hlr, hgr]; omega)]
  rw [getD_zipWith_getD _ _ _ b ([] : List (WithBot ℝ × ℤ))
    ([] : List (WithBot ℝ)) ([] : List ℤ)
    (by simp only [List.length_map, hlr]; omega)
    (by simp only [List.length_map, hlr]; omega)]
  rw [getD_zipWith_getD _ _ _ b ([] : List (WithBot ℝ × ℤ))
    ([] : List (WithBot ℝ)) ([] : List ℤ)
    (by simp only [List.length_map, hgr]; omega)
    (by simp only [List.length_map, hgr]; omega)]
  rw [getD_map_getD _ _ b ([] : List (WithBot ℝ)) [] hbLR,
    getD_map_getD _ _ b ([] : List ℤ) [] hbLR,
    getD_map_getD _ _ b ([] : List (WithBot ℝ)) [] hbGR,
    getD_map_getD _ _ b ([] : List ℤ) [] hbGR]

theorem strict_is_local_row_iff
    (localTrue globalTrue : List (List ℤ))
    (localLogits globalLogits : List (List (List (WithBot ℝ)))) (b : ℕ)
    (hG : globalTrue.length = localTrue.length)
    (hLL : localLogits.length = localTrue.length)
    (hGL : globalLogits.length = localTrue.length)
    (hb : b < localTrue.length)
    (hargs : (globalTrue.getD b []).length = (localTrue.getD b []).length)
    (hLrow : (localTrue.getD b []).length ≤ (localLogits.getD b []).length)
    (hGrow : (globalTrue.getD b []).length ≤ (globalLogits.getD b []).length) :
    ((List.zipWith (fun x y : Bool => x == y)
        (List.zipWith (fun l g : ℤ => decide (g ≤ l)) (localTrue.getD b [])
          (globalTrue.getD b []))
        (List.zipWith (fun lb gb : WithBot ℝ => decide (gb ≤ lb))
          (((ragged_logits localTrue (toDense2 ⊥ localLogits)).getD b []).map reduceMax)
          (((ragged_logits globalTrue (toDense2 ⊥ globalLogits)).getD b []).map
            reduceMax))).all id = true ↔
      ∀ a, a < (localTrue.getD b []).length →
        decide ((globalTrue.getD b []).getD a 0 ≤ (localTrue.getD b []).getD a 0) =
          decide (reduceMax ((globalLogits.getD b []).getD a []) ≤
            reduceMax ((localLogits.getD b []).getD a []))) := by
  have hGG : globalTrue.length = globalLogits.length := by rw [hG, hGL]
  have hbG : b < globalTrue.length := by rw [hG]; exact hb
  have hLrl : ((ragged_logits localTrue (toDense2 ⊥ localLogits)).getD b []).length =
      (localTrue.getD b []).length := pipeline_row_length _ _ b hLL.symm hb hLrow
  have hGrl : ((ragged_logits globalTrue (toDense2 ⊥ globalLogits)).getD b []).length =
      (globalTrue.getD b []).length := pipeline_row_length _ _ b hGG hbG hGrow
  rw [all_beq_iff _ _ false false
    (by rw [List.length_zipWith, List.length_zipWith, List.length_map, List.length_map,
      hLrl, hGrl, hargs, min_self])]
  constructor
  · intro h a ha
    have hthis := h a (by rw [List.length_zipWith, hargs, min_self]; exact ha)
    rw [getD_zipWith_getD _ _ _ a false (0 : ℤ) (0 : ℤ) ha (by rw [hargs]; exact ha),
      getD_zipWith_getD _ _ _ a false (⊥ : WithBot ℝ) (⊥ : WithBot ℝ)
        (by rw [List.length_map, hLrl]; exact ha)
        (by rw [List.length_map, hGrl, hargs]; exact ha),
      getD_map_getD reduceMax ((ragged_logits localTrue (toDense2 ⊥ localLogits)).getD b [])
        a (⊥ : WithBot ℝ) [] (by rw [hLrl]; exact ha),
      getD_map_getD reduceMax ((ragged_logits globalTrue (toDense2 ⊥ globalLogits)).getD b [])
        a (⊥ : WithBot ℝ) [] (by rw [hGrl, hargs]; exact ha),
      pipeline_reduceMax localTrue localLogits b a hLL.symm hb hLrow ha,
      pipeline_reduceMax globalTrue globalLogits b a hGG hbG hGrow
        (by rw [hargs]; exact ha)] at hthis
    exact hthis
  · intro h i hi
    rw [List.length_zipWith, hargs, min_self] at hi
    have hthis := h i hi
    rw [getD_zipWith_getD _ _ _ i false (0 : ℤ) (0 : ℤ) hi (by rw [hargs]; exact hi),
      getD_zipWith_getD _ _ _ i false (⊥ : WithBot ℝ) (⊥ : WithBot ℝ)
        (by rw [List.length_map, hLrl]; exact hi)
        (by rw [List.length_map, hGrl, hargs]; exact hi),
      getD_map_getD reduceMax ((ragged_logits localTrue (toDense2 ⊥ localLogits)).getD b [])
        i (⊥ : WithBot ℝ) [] (by rw [hLrl]; exact hi),
      getD_map_getD reduceMax ((ragged_logits globalTrue (toDense2 ⊥ globalLogits)).getD b [])
        i (⊥ : WithBot ℝ) [] (by rw [hGrl, hargs]; exact hi),
      pipeline_reduceMax localTrue localLogits b i hLL.symm hb hLrow hi,
      pipeline_reduceMax globalTrue globalLogits b i hGG hbG hGrow
        (by rw [hargs]; exact hi)]
    exact hthis

theorem strict_ix_row_iff
    (localTrue globalTrue : List (List ℤ))
    (localLogits globalLogits : List (List (List (WithBot ℝ)))) (b : ℕ)
    (hG : globalTrue.length = localTrue.length)
    (hLL : localLogits.length = localTrue.length)
    (hGL : globalLogits.length = localTrue.length)
    (hb : b < localTrue.length)
    (hargs : (globalTrue.getD b []).length = (localTrue.getD b []).length)
    (hLrow : (localTrue.getD b []).length ≤ (localLogits.getD b []).length)
    (hGrow : (globalTrue.getD b []).length ≤ (globalLogits.getD b []).length) :
    ((List.zipWith (fun x y : ℤ => x == y)
        (List.zipWith (fun l g : ℤ => if g ≤ l then l else g) (localTrue.getD b [])
          (globalTrue.getD b []))
        (List.zipWith (fun p q : WithBot ℝ × ℤ => if q.1 ≤ p.1 then p.2 else q.2)
          (List.zip
            (((ragged_logits localTrue (toDense2 ⊥ localLogits)).getD b []).map reduceMax)
            (((ragged_logits localTrue (toDense2 ⊥ localLogits)).getD b []).map
              (fun r => (argmaxL r : ℤ))))
          (List.zip
            (((ragged_logits globalTrue (toDense2 ⊥ globalLogits)).getD b []).map reduceMax)
            (((ragged_logits globalTrue (toDense2 ⊥ globalLogits)).getD b []).map
              (fun r => (argmaxL r : ℤ)))))).all id = true ↔
      ∀ a, a < (localTrue.getD b []).length →
        (if (globalTrue.getD b []).getD a 0 ≤ (localTrue.getD b []).getD a 0
            then (localTrue.getD b []).getD a 0 else (globalTrue.getD b []).getD a 0) =
          (if reduceMax ((globalLogits.getD b []).getD a []) ≤
              reduceMax ((localLogits.getD b []).getD a [])
            then (argmaxL ((localLogits.getD b []).getD a []) : ℤ)
            else (argmaxL ((globalLogits.getD b []).getD a []) : ℤ))) := by
  have hGG : globalTrue.length = globalLogits.length := by rw [hG, hGL]
  have hbG : b < globalTrue.length := by rw [hG]; exact hb
  have hLrl : ((ragged_logits localTrue (toDense2 ⊥ localLogits)).getD b []).length =
      (localTrue.getD b []).length := pipeline_row_length _ _ b hLL.symm hb hLrow
  have hGrl : ((ragged_logits globalTrue (toDense2 ⊥ globalLogits)).getD b []).length =
      (globalTrue.getD b []).length := pipeline_row_length _ _ b hGG hbG hGrow
  rw [all_beq_iff _ _ (0 : ℤ) (0 : ℤ)
    (by simp only [List.length_zipWith, List.length_zip, List.length_map, hLrl, hGrl, hargs]
        omega)]
  constructor
  · intro h a ha
    have hthis := h a (by rw [List.length_zipWith, hargs, min_self]; exact ha)
    rw [getD_zipWith_getD _ _ _ a (0 : ℤ) (0 : ℤ) (0 : ℤ) ha (by rw [hargs]; exact ha),
      getD_zipWith_getD _ _ _ a (0 : ℤ)
        ((⊥, 0) : WithBot ℝ × ℤ) ((⊥, 0) : WithBot ℝ × ℤ)
        (by simp only [List.length_zip, List.length_map, hLrl]; omega)
        (by simp only [List.length_zip, List.length_map, hGrl, hargs]; omega),
      getD_zip_getD (((ragged_logits localTrue (toDense2 ⊥ localLogits)).getD b []).map
          reduceMax)
        (((ragged_logits localTrue (toDense2 ⊥ localLogits)).getD b []).map
          (fun r => (argmaxL r : ℤ))) a (⊥ : WithBot ℝ) (0 : ℤ)
        (by rw [List.length_map, hLrl]; exact ha) (by rw [List.length_map, hLrl]; exact ha),
      getD_zip_getD (((ragged_logits globalTrue (toDense2 ⊥ globalLogits)).getD b []).map
          reduceMax)
        (((ragged_logits globalTrue (toDense2 ⊥ globalLogits)).getD b []).map
          (fun r => (argmaxL r : ℤ))) a (⊥ : WithBot ℝ) (0 : ℤ)
        (by rw [List.length_map, hGrl, hargs]; exact ha)
        (by rw [List.length_map, hGrl, hargs]; exact ha),
      getD_map_getD reduceMax ((ragged_logits localTrue (toDense2 ⊥ localLogits)).getD b [])
        a (⊥ : WithBot ℝ) [] (by rw [hLrl]; exact ha),
      getD_map_getD (fun r => (argmaxL r : ℤ))
        ((ragged_logits localTrue (toDense2 ⊥ localLogits)).getD b [])
        a (0 : ℤ) [] (by rw [hLrl]; exact ha),
      getD_map_getD reduceMax ((ragged_logits globalTrue (toDense2 ⊥ globalLogits)).getD b [])
        a (⊥ : WithBot ℝ) [] (by rw [hGrl, hargs]; exact ha),
      getD_map_getD (fun r => (argmaxL r : ℤ))
        ((ragged_logits globalTrue (toDense2 ⊥ globalLogits)).getD b [])
        a (0 : ℤ) [] (by rw [hGrl, hargs]; exact ha)] at hthis
    rw [← pipeline_reduceMax localTrue localLogits b a hLL.symm hb hLrow ha,
      ← pipeline_reduceMax globalTrue globalLogits b a hGG hbG hGrow
        (by rw [hargs]; exact ha),
      ← pipeline_argmax localTrue localLogits b a hLL.symm hb hLrow ha,
      ← pipeline_argmax globalTrue globalLogits b a hGG hbG hGrow
        (by rw [hargs]; exact ha)]
    exact hthis
  · intro h i hi
    rw [List.length_zipWith, hargs, min_self] at hi
    have hthis := h i hi
    rw [← pipeline_reduceMax localTrue localLogits b i hLL.symm hb hLrow hi,
      ← pipeline_reduceMax globalTrue globalLogits b i hGG hbG hGrow
        (by rw [hargs]; exact hi),
      ← pipeline_argmax localTrue localLogits b i hLL.symm hb hLrow hi,
      ← pipeline_argmax globalTrue globalLogits b i hGG hbG hGrow
        (by rw [hargs]; exact hi)] at hthis
    rw [getD_zipWith_getD _ _ _ i (0 : ℤ) (0 : ℤ) (0 : ℤ) hi (by rw [hargs]; exact hi),
      getD_zipWith_getD _ _ _ i (0 : ℤ)
        ((⊥, 0) : WithBot ℝ × ℤ) ((⊥, 0) : WithBot ℝ × ℤ)
        (by simp only [List.length_zip, List.length_map, hLrl]; omega)
        (by simp only [List.length_zip, List.length_map, hGrl, hargs]; omega),
      getD_zip_getD (((ragged_logits localTrue (toDense2 ⊥ localLogits)).getD b []).map
          reduceMax)
        (((ragged_logits localTrue (toDense2 ⊥ localLogits)).getD b []).map
          (fun r => (argmaxL r : ℤ))) i (⊥ : WithBot ℝ) (0 : ℤ)
        (by rw [List.length_map, hLrl]; exact hi) (by rw [List.length_map, hLrl]; exact hi),
      getD_zip_getD (((ragged_logits globalTrue (toDense2 ⊥ globalLogits)).getD b []).map
          reduceMax)
        (((ragged_logits globalTrue (toDense2 ⊥ globalLogits)).getD b []).map
          (fun r => (argmaxL r : ℤ))) i (⊥ : WithBot ℝ) (0 : ℤ)
        (by rw [List.length_map, hGrl, hargs]; exact hi)
        (by rw [List.length_map, hGrl, hargs]; exact hi),
      getD_map_getD reduceMax ((ragged_logits localTrue (toDense2 ⊥ localLogits)).getD b [])
        i (⊥ : WithBot ℝ) [] (by rw [hLrl]; exact hi),
      getD_map_getD (fun r => (argmaxL r : ℤ))
        ((ragged_logits localTrue (toDense2 ⊥ localLogits)).getD b [])
        i (0 : ℤ) [] (by rw [hLrl]; exact hi),
      getD_map_getD reduceMax ((ragged_logits globalTrue (toDense2 ⊥ globalLogits)).getD b [])
        i (⊥ : WithBot ℝ) [] (by rw [hGrl, hargs]; exact hi),
      getD_map_getD (fun r => (argmaxL r : ℤ))
        ((ragged_logits globalTrue (toDense2 ⊥ globalLogits)).getD b [])
        i (0 : ℤ) [] (by rw [hGrl, hargs]; exact hi)]
    exact hthis

theorem indicator_product_one_iff (P : Prop) [Decidable P] (x y : Bool) :
    ((if P then (1 : ℝ) else 0) * (if x && y then (1 : ℝ) else 0) = 1 ↔
      (P ∧ x = true ∧ y = true)) ∧
    ((if P then (1 : ℝ) else 0) * (if x && y then (1 : ℝ) else 0) ≠ 1 →
      (if P then (1 : ℝ) else 0) * (if x && y then (1 : ℝ) else 0) = 0) := by
  by_cases hp : P <;> cases x <;> cases y <;> simp [hp]

/-- C5: the strict sequence-level accuracy score of a batch example in
`GlobalArgumentModel.compute_metrics` is `1` exactly when the predicted tactic arg-max equals
the ground-truth tactic and, at every argument position, the pool implied by the larger best
logit (local wins ties) agrees with the ground-truth pool (local iff the local label is
taken) and the arg-max index inside the logit-chosen pool equals the label of the truth-chosen
pool; a pool-choice mismatch at a single position forces the score to `0`, and a position
whose ground truth is the sentinel `-1` in both pools always forces the score to `0` (the
predicted index is a nonnegative arg-max and can never equal `-1`). -/
theorem global_strict_accuracy_characterization
    (tacticTrue : List ℕ) (tacticLogits : List (List ℝ))
    (localTrue globalTrue : List (List ℤ))
    (localLogits globalLogits : List (List (List (WithBot ℝ)))) (b : ℕ)
    (hT : tacticTrue.length = localTrue.length)
    (hTL : tacticLogits.length = localTrue.length)
    (hG : globalTrue.length = localTrue.length)
    (hLL : localLogits.length = localTrue.length)
    (hGL : globalLogits.length = localTrue.length)
    (hb : b < localTrue.length)
    (hargs : (globalTrue.getD b []).length = (localTrue.getD b []).length)
    (hLrow : (localTrue.getD b []).length ≤ (localLogits.getD b []).length)
    (hGrow : (globalTrue.getD b []).length ≤ (globalLogits.getD b []).length) :
    ((GlobalArgumentModel.compute_strict_scores tacticTrue tacticLogits localTrue globalTrue
        localLogits globalLogits).getD b 0 = 1 ↔
      (argmaxL (tacticLogits.getD b []) = tacticTrue.getD b 0 ∧
        ∀ a, a < (localTrue.getD b []).length →
          (((globalTrue.getD b []).getD a 0 ≤ (localTrue.getD b []).getD a 0 ↔
              reduceMax ((globalLogits.getD b []).getD a []) ≤
                reduceMax ((localLogits.getD b []).getD a [])) ∧
            (if reduceMax ((globalLogits.getD b []).getD a []) ≤
                reduceMax ((localLogits.getD b []).getD a [])
              then (argmaxL ((localLogits.getD b []).getD a []) : ℤ)
              else (argmaxL ((globalLogits.getD b []).getD a []) : ℤ)) =
              (if (globalTrue.getD b []).getD a 0 ≤ (localTrue.getD b []).getD a 0
                then (localTrue.getD b []).getD a 0
                else (globalTrue.getD b []).getD a 0)))) ∧
    ((∃ a, a < (localTrue.getD b []).length ∧
        ¬((globalTrue.getD b []).getD a 0 ≤ (localTrue.getD b []).getD a 0 ↔
            reduceMax ((globalLogits.getD b []).getD a []) ≤
              reduceMax ((localLogits.getD b []).getD a []))) →
      (GlobalArgumentModel.compute_strict_scores tacticTrue tacticLogits localTrue globalTrue
          localLogits globalLogits).getD b 0 = 0) ∧
    ((∃ a, a < (localTrue.getD b []).length ∧ (localTrue.getD b []).getD a 0 = -1 ∧
        (globalTrue.getD b []).getD a 0 = -1) →
      (GlobalArgumentModel.compute_strict_scores tacticTrue tacticLogits localTrue globalTrue
          localLogits globalLogits).getD b 0 = 0) := by
  have hmain := strict_scores_entry_product tacticTrue tacticLogits localTrue globalTrue
    localLogits globalLogits b hT hTL hG hLL hGL hb
  have hB := strict_is_local_row_iff localTrue globalTrue localLogits globalLogits b
    hG hLL hGL hb hargs hLrow hGrow
  have hC := strict_ix_row_iff localTrue globalTrue localLogits globalLogits b
    hG hLL hGL hb hargs hLrow hGrow
  have hiff : (GlobalArgumentModel.compute_strict_scores tacticTrue tacticLogits localTrue
      globalTrue localLogits globalLogits).getD b 0 = 1 ↔
      (argmaxL (tacticLogits.getD b []) = tacticTrue.getD b 0 ∧
        ∀ a, a < (localTrue.getD b []).length →
          (((globalTrue.getD b []).getD a 0 ≤ (localTrue.getD b []).getD a 0 ↔
              reduceMax ((globalLogits.getD b []).getD a []) ≤
                reduceMax ((localLogits.getD b []).getD a [])) ∧
            (if reduceMax ((globalLogits.getD b []).getD a []) ≤
                reduceMax ((localLogits.getD b []).getD a [])
              then (argmaxL ((localLogits.getD b []).getD a []) : ℤ)
              else (argmaxL ((globalLogits.getD b []).getD a []) : ℤ)) =
              (if (globalTrue.getD b []).getD a 0 ≤ (localTrue.getD b []).getD a 0
                then (localTrue.getD b []).getD a 0
                else (globalTrue.getD b []).getD a 0))) := by
    rw [hmain, sparse_categorical_accuracy, (indicator_product_one_iff _ _ _).1, hB, hC]
    refine and_congr_right fun _ => ?_
    constructor
    · rintro ⟨h1, h2⟩ a ha
      exact ⟨decide_eq_decide.mp (h1 a ha), (h2 a ha).symm⟩
    · intro hall
      exact ⟨fun a ha => decide_eq_decide.mpr (hall a ha).1,
        fun a ha => ((hall a ha).2).symm⟩
  have hzero : (GlobalArgumentModel.compute_strict_scores tacticTrue tacticLogits localTrue
      globalTrue localLogits globalLogits).getD b 0 ≠ 1 →
      (GlobalArgumentModel.compute_strict_scores tacticTrue tacticLogits localTrue
        globalTrue localLogits globalLogits).getD b 0 = 0 := by
    rw [hmain, sparse_categorical_accuracy]
    exact (indicator_product_one_iff _ _ _).2
  refine ⟨hiff, ?_, ?_⟩
  · rintro ⟨a, ha, hne⟩
    apply hzero
    intro h1
    exact hne ((hiff.mp h1).2 a ha).1
  · rintro ⟨a, ha, hl, hg⟩
    apply hzero
    intro h1
    have hix := ((hiff.mp h1).2 a ha).2
    rw [hl, hg, if_pos (le_refl (-1 : ℤ))] at hix
    split at hix
    · have := Int.natCast_nonneg (argmaxL ((localLogits.getD b []).getD a []))
      omega
    · have := Int.natCast_nonneg (argmaxL ((globalLogits.getD b []).getD a []))
      omega

theorem global_strict_accuracy_characterization_witness :
    (GlobalArgumentModel.compute_strict_scores [0] [[(1 : ℝ)]] [[0]] [[-1]]
        [[[((1 : ℝ) : WithBot ℝ)]]] [[[((0 : ℝ) : WithBot ℝ)]]]).getD 0 0 = 1 := by
  refine (global_strict_accuracy_characterization [0] [[(1 : ℝ)]] [[0]] [[-1]]
    [[[((1 : ℝ) : WithBot ℝ)]]] [[[((0 : ℝ) : WithBot ℝ)]]] 0
    rfl rfl rfl rfl rfl (by decide) rfl (by decide) (by decide)).1.mpr ?_
  have hred1 : reduceMax [((1 : ℝ) : WithBot ℝ)] = ((1 : ℝ) : WithBot ℝ) :=
    max_eq_left bot_le
  have hred0 : reduceMax [((0 : ℝ) : WithBot ℝ)] = ((0 : ℝ) : WithBot ℝ) :=
    max_eq_left bot_le
  constructor
  · rfl
  · intro a ha
    have ha0 : a = 0 := by
      simp only [List.getD_cons_zero, List.length_cons, List.length_nil] at ha
      omega
    subst ha0
    constructor
    · simp only [List.getD_cons_zero, hred0, hred1, WithBot.coe_le_coe]
      norm_num
    · simp only [List.getD_cons_zero, hred0, hred1]
      rw [if_pos (show ((0 : ℝ) : WithBot ℝ) ≤ ((1 : ℝ) : WithBot ℝ) from
          WithBot.coe_le_coe.mpr (by norm_num)),
        if_pos (show (-1 : ℤ) ≤ 0 by norm_num)]
      rfl
